import Mathlib

/-!
# FlexiSched scheduling core: a shallow embedding

Lean models of the scheduling/optimization subsystem of FlexiSched
(`ai_engine/`): the grid builder, section planner, constraint-solver
extraction and conflict detection, the genetic solver's best-tracking loop,
the student allocators and the elective optimizer, together with theorems
about the properties the design documentation states for them.

Python integers are modelled as `Nat`/`Int`, Python floats that only ever
hold exact decimal values as `Rat`, Python dictionaries as association
lists (insertion ordered, like `dict`), and Python `time` values as
minutes-of-day (`Nat`, reduced mod 1440 where the code's
`datetime + timedelta` arithmetic wraps).
-/

namespace FlexiSched

/-- A conflict record as the generators produce it: a dictionary carrying a
conflict type and a severity string
(`unified_timetable_generator.UnifiedTimetableGenerator._detect_conflicts`). -/
structure ConflictRec where
  ctype : String
  severity : String
deriving DecidableEq

/-- The metrics dictionary of
`UnifiedTimetableGenerator._calculate_metrics`, restricted to the three
fields that `_calculate_optimization_score` reads. -/
structure Metrics where
  facultyUtilization : ℚ
  roomUtilization : ℚ
  allocationSuccessRate : ℚ

/-- Model of `UnifiedTimetableGenerator._calculate_optimization_score`: start from
100, subtract 20 per high-severity and 10 per medium-severity conflict, add
5 when faculty utilization exceeds 70, 5 when room utilization exceeds 60
and 10 when the allocation success rate exceeds 90, then clamp into
[0, 100]. -/
def calculateOptimizationScore (metrics : Metrics) (conflicts : List ConflictRec) : ℚ :=
  let highSeverityConflicts : ℕ := (conflicts.filter (fun c => c.severity = "high")).length
  let mediumSeverityConflicts : ℕ := (conflicts.filter (fun c => c.severity = "medium")).length
  let score1 : ℚ := 100 - (highSeverityConflicts : ℚ) * 20 - (mediumSeverityConflicts : ℚ) * 10
  let score2 : ℚ := if metrics.facultyUtilization > 70 then score1 + 5 else score1
  let score3 : ℚ := if metrics.roomUtilization > 60 then score2 + 5 else score2
  let score4 : ℚ := if metrics.allocationSuccessRate > 90 then score3 + 10 else score3
  max 0 (min 100 score4)

/-- The optimization score exactly as the design documentation words it: a
+5 bonus for each of the three utilization conditions. Written from the
documentation, to be compared with `calculateOptimizationScore`. -/
def specOptimizationScore (metrics : Metrics) (conflicts : List ConflictRec) : ℚ :=
  let highSeverityConflicts : ℕ := (conflicts.filter (fun c => c.severity = "high")).length
  let mediumSeverityConflicts : ℕ := (conflicts.filter (fun c => c.severity = "medium")).length
  max 0 (min 100 (100 - (highSeverityConflicts : ℚ) * 20 - (mediumSeverityConflicts : ℚ) * 10
    + (if metrics.facultyUtilization > 70 then 5 else 0)
    + (if metrics.roomUtilization > 60 then 5 else 0)
    + (if metrics.allocationSuccessRate > 90 then 5 else 0)))

/-- C5, counterexample: with one high-severity conflict, utilizations at
zero and an allocation success rate of 95, the code scores
100 − 20 + 10 = 90, while the claimed formula (+5 bonus for the allocation
rate) gives 85. -/
theorem optimizationScore_ne_claim :
    calculateOptimizationScore ⟨0, 0, 95⟩ [⟨"faculty_conflict", "high"⟩] = 90 ∧
    specOptimizationScore ⟨0, 0, 95⟩ [⟨"faculty_conflict", "high"⟩] = 85 ∧
    calculateOptimizationScore ⟨0, 0, 95⟩ [⟨"faculty_conflict", "high"⟩] ≠
      specOptimizationScore ⟨0, 0, 95⟩ [⟨"faculty_conflict", "high"⟩] := by
  refine ⟨?_, ?_, ?_⟩ <;>
    norm_num [calculateOptimizationScore, specOptimizationScore, List.filter_cons, List.filter_nil,
      show ("high" = "medium") = False by simp]

/-- C5, amended: the optimization score equals 100 minus 20 per
high-severity conflict minus 10 per medium-severity conflict, plus 5 when
faculty utilization exceeds 70, plus 5 when room utilization exceeds 60,
plus 10 (not 5) when the allocation success rate exceeds 90, clamped to
[0, 100]. -/
theorem optimizationScore_closed_form (m : Metrics) (conflicts : List ConflictRec) :
    calculateOptimizationScore m conflicts =
      max 0 (min 100
        (100 - ((conflicts.filter (fun c => c.severity = "high")).length : ℚ) * 20
             - ((conflicts.filter (fun c => c.severity = "medium")).length : ℚ) * 10
          + (if m.facultyUtilization > 70 then 5 else 0)
          + (if m.roomUtilization > 60 then 5 else 0)
          + (if m.allocationSuccessRate > 90 then 10 else 0))) := by
  unfold calculateOptimizationScore
  split_ifs <;> ring_nf

/-! ## Section planner (`comprehensive_sectioning.py`, `unified_timetable_generator.py`) -/

/-- Course types (`comprehensive_sectioning.CourseType`, identical to
`unified_timetable_generator.CourseType`). -/
inductive CourseKind where
  | core
  | elective
  | lab
  | clinic
deriving DecidableEq

/-- Session types (`comprehensive_sectioning.SessionType`). -/
inductive SessionKind where
  | theory
  | lab
  | practical
deriving DecidableEq

/-- Model of Python `int(q)` applied to a numeric value: truncation toward
zero. -/
def pyInt (q : ℚ) : ℤ := if 0 ≤ q then ⌊q⌋ else ⌈q⌉

/-- Model of `comprehensive_sectioning.CourseDefinition`. The float field
`estimated_demand_percentage` is modelled as a rational. -/
structure CourseDefinition where
  courseId : String
  courseName : String
  courseType : CourseKind
  totalCredits : ℤ
  theoryHours : ℕ
  labHours : ℕ
  isCompulsory : Bool
  maxTheoryCapacity : ℕ
  maxLabCapacity : ℕ
  requiresContinuousLab : Bool
  estimatedDemandPercentage : ℚ
deriving DecidableEq

/-- Model of
`ComprehensiveSectioningEngine.calculate_required_sections`: electives get
`int(total_students * estimated_demand_percentage)` estimated students,
all other course types get every student; the theory (resp. lab) section
count is `math.ceil(estimated / capacity)` when the course has theory
(resp. lab) hours, else 0. -/
def calculateRequiredSections (course : CourseDefinition) (totalStudents : ℕ) : ℤ × ℤ :=
  let estimatedStudents : ℤ :=
    if course.courseType = .elective then
      pyInt ((totalStudents : ℚ) * course.estimatedDemandPercentage)
    else totalStudents
  let theorySections : ℤ :=
    if course.theoryHours > 0 then
      ⌈(estimatedStudents : ℚ) / (course.maxTheoryCapacity : ℚ)⌉
    else 0
  let labSections : ℤ :=
    if course.labHours > 0 then
      ⌈(estimatedStudents : ℚ) / (course.maxLabCapacity : ℚ)⌉
    else 0
  (theorySections, labSections)

/-- Section counts as the design documentation words them: expected
enrollment is `total_students` for a compulsory course and
`round(total_students * estimated_demand_fraction)` for an elective, and
each count is the ceiling of expected over capacity when the matching
weekly hours are positive. Written from the documentation, to be compared
with `calculateRequiredSections`. -/
def specRequiredSections (course : CourseDefinition) (totalStudents : ℕ) : ℤ × ℤ :=
  let expected : ℤ :=
    if course.isCompulsory then (totalStudents : ℤ)
    else round ((totalStudents : ℚ) * course.estimatedDemandPercentage)
  ( if course.theoryHours > 0 then ⌈(expected : ℚ) / (course.maxTheoryCapacity : ℚ)⌉ else 0,
    if course.labHours > 0 then ⌈(expected : ℚ) / (course.maxLabCapacity : ℚ)⌉ else 0 )

/-- Model of `comprehensive_sectioning.SectionDefinition`. -/
structure SectionDefinition where
  sectionId : String
  courseId : String
  courseName : String
  courseType : CourseKind
  sessionType : SessionKind
  maxCapacity : ℕ
  enrolledStudents : List String
  assignedSlots : List String
  isContinuous : Bool
deriving DecidableEq

/-- Model of `ComprehensiveSectioningEngine._find_continuous_slots`: walk
the available slots in order and take the first `need` ones that are not
already used. -/
def findContinuousAux (usedSlots : List String) : List String → ℕ → List String
  | [], _ => []
  | s :: rest, need =>
    if s ∉ usedSlots ∧ 0 < need then s :: findContinuousAux usedSlots rest (need - 1)
    else findContinuousAux usedSlots rest need

/-- Entry point of `_find_continuous_slots`. -/
def findContinuousSlots (slotsNeeded : ℕ) (availableSlots usedSlots : List String) :
    List String :=
  findContinuousAux usedSlots availableSlots slotsNeeded

/-- The inner `for slot in pattern_slots` search of
`_find_distributed_slots`: the first slot of the pattern that is neither
used nor already allocated. -/
def firstEligible (pat usedSlots allocated : List String) : Option String :=
  pat.find? (fun s => decide (s ∉ usedSlots ∧ s ∉ allocated))

/-- The `while ... and pattern_idx < len(pattern_keys) * 3` loop of
`_find_distributed_slots`: alternate between the morning and afternoon
pattern lists for at most six steps, appending at most one eligible slot
per step. The first argument is the number of loop steps left. -/
def findDistributedLoop (morning afternoon usedSlots : List String) (slotsNeeded : ℕ) :
    ℕ → ℕ → List String → List String
  | 0, _, allocated => allocated
  | steps + 1, patternIdx, allocated =>
    if allocated.length < slotsNeeded then
      let pat := if patternIdx % 2 = 0 then morning else afternoon
      let allocated' :=
        match firstEligible pat usedSlots allocated with
        | some s => allocated ++ [s]
        | none => allocated
      findDistributedLoop morning afternoon usedSlots slotsNeeded steps (patternIdx + 1) allocated'
    else allocated

/-- The trailing fill loop of `_find_distributed_slots`: take any
still-eligible slots until the requested number is reached. -/
def fillRemaining (usedSlots : List String) : List String → List String → ℕ → List String
  | [], allocated, _ => allocated
  | s :: rest, allocated, need =>
    if s ∉ usedSlots ∧ s ∉ allocated ∧ allocated.length < need then
      fillRemaining usedSlots rest (allocated ++ [s]) need
    else fillRemaining usedSlots rest allocated need

/-- Model of Python's `str.endswith`, working on the character list of the
string. -/
def pyEndsWith (s suffix : String) : Bool :=
  suffix.data.isSuffixOf s.data

/-- Model of `ComprehensiveSectioningEngine._find_distributed_slots`. -/
def findDistributedSlots (slotsNeeded : ℕ) (availableSlots usedSlots : List String) :
    List String :=
  let morning := availableSlots.filter (fun s => pyEndsWith s "1")
  let afternoon := availableSlots.filter (fun s => pyEndsWith s "2")
  let allocated := findDistributedLoop morning afternoon usedSlots slotsNeeded 6 0 []
  fillRemaining usedSlots availableSlots allocated slotsNeeded

/-- Model of `ComprehensiveSectioningEngine._allocate_slots`. -/
def allocateSlots (slotsNeeded : ℕ) (availableSlots usedSlots : List String)
    (continuous : Bool) : List String :=
  if continuous ∧ slotsNeeded > 1 then findContinuousSlots slotsNeeded availableSlots usedSlots
  else findDistributedSlots slotsNeeded availableSlots usedSlots

/-- Sort key used by `generate_all_sections`: core courses first, then by
descending credits. -/
def courseSortKey (c : CourseDefinition) : ℤ × ℤ :=
  (if c.courseType = .core then 0 else 1, -c.totalCredits)

/-- Lexicographic comparison of sort keys. -/
def keyLE (a b : ℤ × ℤ) : Bool :=
  if a.1 < b.1 then true else if b.1 < a.1 then false else decide (a.2 ≤ b.2)

/-- Stable insertion preserving the relative order of equal keys, matching
Python's stable `sorted`. -/
def insertSortedCourse (c : CourseDefinition) : List CourseDefinition → List CourseDefinition
  | [] => [c]
  | d :: rest =>
    if keyLE (courseSortKey c) (courseSortKey d) then c :: d :: rest
    else d :: insertSortedCourse c rest

/-- Model of `sorted(courses, key=lambda c: (0 if core else 1, -credits))`;
a stable sort, so any stable sorting algorithm yields the same list. -/
def sortCourses : List CourseDefinition → List CourseDefinition
  | [] => []
  | c :: rest => insertSortedCourse c (sortCourses rest)

/-- The theory-section loop of `generate_all_sections` for one course:
`needed` iterations, each allocating `theory_hours` distributed slots and
materializing a section only when the full request could be allocated. -/
def genTheoryLoop (course : CourseDefinition) (theoryPool : List String) :
    ℕ → ℕ → List SectionDefinition × List String → List SectionDefinition × List String
  | 0, _, st => st
  | k + 1, i, (secs, used) =>
    let slotsNeeded := course.theoryHours
    let assigned := allocateSlots slotsNeeded theoryPool used false
    if assigned.length = slotsNeeded then
      let sec : SectionDefinition :=
        { sectionId := course.courseId ++ "_TH_SEC" ++ toString (i + 1)
          courseId := course.courseId
          courseName := course.courseName
          courseType := course.courseType
          sessionType := .theory
          maxCapacity := course.maxTheoryCapacity
          enrolledStudents := []
          assignedSlots := assigned
          isContinuous := false }
      genTheoryLoop course theoryPool k (i + 1) (secs ++ [sec], used ++ assigned)
    else genTheoryLoop course theoryPool k (i + 1) (secs, used)

/-- The lab-section loop of `generate_all_sections` for one course:
`needed` iterations, each allocating `ceil(lab_hours / 2)` lab slots and
materializing a section whenever at least one slot could be allocated. -/
def genLabLoop (course : CourseDefinition) (labPool : List String) :
    ℕ → ℕ → List SectionDefinition × List String → List SectionDefinition × List String
  | 0, _, st => st
  | k + 1, i, (secs, used) =>
    let slotsNeeded := (course.labHours + 1) / 2
    let assigned := allocateSlots slotsNeeded labPool used course.requiresContinuousLab
    if 1 ≤ assigned.length then
      let sec : SectionDefinition :=
        { sectionId := course.courseId ++ "_LAB_SEC" ++ toString (i + 1)
          courseId := course.courseId
          courseName := course.courseName
          courseType := course.courseType
          sessionType := .lab
          maxCapacity := course.maxLabCapacity
          enrolledStudents := []
          assignedSlots := assigned
          isContinuous := course.requiresContinuousLab }
      genLabLoop course labPool k (i + 1) (secs ++ [sec], used ++ assigned)
    else genLabLoop course labPool k (i + 1) (secs, used)

/-- Per-course body of the `generate_all_sections` fold. -/
def genCourseSections (theoryPool labPool : List String) (totalStudents : ℕ)
    (st : List SectionDefinition × List String) (course : CourseDefinition) :
    List SectionDefinition × List String :=
  let counts := calculateRequiredSections course totalStudents
  let st1 := genTheoryLoop course theoryPool counts.1.toNat 0 st
  genLabLoop course labPool counts.2.toNat 0 st1

/-- Model of `ComprehensiveSectioningEngine.generate_all_sections`: sort
the courses (core first, higher credits first, stable), then for each
course materialize its theory and lab sections while threading the set of
already-used slots. The two slot pools are the engine's
`available_theory_slots` and `available_lab_slots`. -/
def generateAllSections (theoryPool labPool : List String)
    (courses : List CourseDefinition) (totalStudents : ℕ) : List SectionDefinition :=
  ((sortCourses courses).foldl (genCourseSections theoryPool labPool totalStudents)
    ([], [])).1

/-- Slot types of the unified generator (`unified_timetable_generator.SlotType`). -/
inductive USlotKind where
  | theory
  | lab
  | brk
deriving DecidableEq

/-- Model of `unified_timetable_generator.Course` after `_process_courses`
(the `estimated_students` field is already computed). -/
structure UCourse where
  courseId : String
  courseName : String
  courseType : CourseKind
  credits : ℤ
  theoryHours : ℕ
  labHours : ℕ
  maxTheoryCapacity : ℤ
  maxLabCapacity : ℤ
  estimatedStudents : ℤ
  isCompulsory : Bool
deriving DecidableEq

/-- Model of `unified_timetable_generator.Section`. -/
structure USection where
  sectionId : String
  courseId : String
  sectionType : USlotKind
  maxStudents : ℤ
  assignedFaculty : String
  assignedRoom : String
  assignedSlots : List String
  enrolledStudents : List String
deriving DecidableEq

/-- Estimated enrollment as computed by
`UnifiedTimetableGenerator._process_courses`: electives get
`int(total_students * estimated_demand_percentage)`, everything else the
full student strength. -/
def uEstimatedStudents (courseType : CourseKind) (demandPct : ℚ) (totalStudents : ℕ) : ℤ :=
  if courseType = .elective then pyInt ((totalStudents : ℚ) * demandPct)
  else totalStudents

/-- Theory section count of `UnifiedTimetableGenerator._calculate_sections`:
`max(1, (estimated + capacity - 1) // capacity)` (Python floor division). -/
def uTheorySectionsNeeded (c : UCourse) : ℤ :=
  max 1 ((c.estimatedStudents + c.maxTheoryCapacity - 1).fdiv c.maxTheoryCapacity)

/-- Lab section count of `UnifiedTimetableGenerator._calculate_sections`. -/
def uLabSectionsNeeded (c : UCourse) : ℤ :=
  max 1 ((c.estimatedStudents + c.maxLabCapacity - 1).fdiv c.maxLabCapacity)

/-- Model of `UnifiedTimetableGenerator._calculate_sections`: for each
course, materialize its theory sections (when it has theory hours) and its
lab sections (when it has lab hours), with empty assignments. -/
def uCalculateSections (courses : List UCourse) : List USection :=
  courses.flatMap fun course =>
    (if course.theoryHours > 0 then
      (List.range (uTheorySectionsNeeded course).toNat).map (fun i =>
        { sectionId := course.courseId ++ "_T" ++ toString (i + 1)
          courseId := course.courseId
          sectionType := USlotKind.theory
          maxStudents := course.maxTheoryCapacity
          assignedFaculty := ""
          assignedRoom := ""
          assignedSlots := []
          enrolledStudents := [] })
    else [])
    ++
    (if course.labHours > 0 then
      (List.range (uLabSectionsNeeded course).toNat).map (fun i =>
        { sectionId := course.courseId ++ "_L" ++ toString (i + 1)
          courseId := course.courseId
          sectionType := USlotKind.lab
          maxStudents := course.maxLabCapacity
          assignedFaculty := ""
          assignedRoom := ""
          assignedSlots := []
          enrolledStudents := [] })
    else [])

/-- Python's `(n + d - 1) // d` computes the ceiling of `n / d` for a
positive divisor. -/
theorem fdiv_pred_eq_ceil (n d : ℤ) (hd : 0 < d) :
    (n + d - 1).fdiv d = ⌈(n : ℚ) / (d : ℚ)⌉ := by
  rw [Int.fdiv_eq_ediv _ hd.le]
  symm
  rw [Int.ceil_eq_iff]
  have hd' : (0 : ℚ) < (d : ℚ) := by exact_mod_cast hd
  have h0 : 0 ≤ (n + d - 1) % d := Int.emod_nonneg _ (by omega)
  have h1 : (n + d - 1) % d < d := Int.emod_lt_of_pos _ hd
  have hq : d * ((n + d - 1) / d) + (n + d - 1) % d = n + d - 1 := Int.ediv_add_emod _ _
  constructor
  · rw [lt_div_iff₀ hd']
    have : ((n + d - 1) / d - 1) * d < n := by nlinarith [hq, h0, h1]
    exact_mod_cast this
  · rw [div_le_iff₀ hd']
    have : n ≤ ((n + d - 1) / d) * d := by nlinarith [hq, h0, h1]
    exact_mod_cast this

/-- Sample elective: 10 students at demand fraction 0.27 estimate 2.7
students, truncated by the code to 2, rounded by the documentation's
formula to 3; with theory capacity 1 the two formulas give different
section counts. -/
def electiveSample : CourseDefinition :=
  { courseId := "E1", courseName := "E", courseType := .elective, totalCredits := 3,
    theoryHours := 3, labHours := 0, isCompulsory := false, maxTheoryCapacity := 1,
    maxLabCapacity := 40, requiresContinuousLab := false,
    estimatedDemandPercentage := 27/100 }

/-- Sample unified-generator elective whose estimated enrollment is zero
(demand fraction 0 over 200 students). -/
def uElectiveZero : UCourse :=
  { courseId := "E2", courseName := "E2", courseType := .elective, credits := 3,
    theoryHours := 3, labHours := 0, maxTheoryCapacity := 60, maxLabCapacity := 30,
    estimatedStudents := uEstimatedStudents .elective 0 200, isCompulsory := false }

/-- Sample unified-generator course with lab hours: 45 estimated students
under lab capacity 30 need max(1, ceil(45/30)) = 2 lab sections. -/
def uCoreLab : UCourse :=
  { courseId := "CL", courseName := "CL", courseType := .core, credits := 4,
    theoryHours := 0, labHours := 2, maxTheoryCapacity := 60, maxLabCapacity := 30,
    estimatedStudents := 45, isCompulsory := true }

/-- Sample compulsory course of the documentation's worked example:
200 students, theory capacity 60, three weekly theory hours. -/
def coreSample200 : CourseDefinition :=
  { courseId := "C1C", courseName := "Core", courseType := .core, totalCredits := 3,
    theoryHours := 3, labHours := 0, isCompulsory := true, maxTheoryCapacity := 60,
    maxLabCapacity := 40, requiresContinuousLab := false,
    estimatedDemandPercentage := 1 }

/-- Sample small compulsory course: 10 students under a capacity of 60. -/
def coreSampleDM : CourseDefinition :=
  { courseId := "DM", courseName := "DM", courseType := .core, totalCredits := 4,
    theoryHours := 3, labHours := 0, isCompulsory := true, maxTheoryCapacity := 60,
    maxLabCapacity := 40, requiresContinuousLab := false,
    estimatedDemandPercentage := 1 }

/-- A theory-slot pool with twelve distinct slots (eight morning, four
afternoon). -/
def theoryPool12 : List String :=
  ["A1", "B1", "C1", "D1", "E1", "F1", "G1", "H1", "A2", "B2", "C2", "D2"]

/-- Evaluation helper: the ceiling of an integer over a positive natural,
as a rational, is computed by Python's `(n + d - 1) // d` idiom. -/
theorem ceil_intCast_div_natCast (n : ℤ) (d : ℕ) (hd : 0 < d) :
    ⌈(n : ℚ) / (d : ℚ)⌉ = (n + (d : ℤ) - 1).fdiv (d : ℤ) := by
  rw [show ((d : ℕ) : ℚ) = (((d : ℕ) : ℤ) : ℚ) by push_cast; ring]
  exact (fdiv_pred_eq_ceil n (d : ℤ) (by exact_mod_cast hd)).symm

/-- Evaluation helper: Python truncation of 2.7 gives 2. -/
theorem pyInt_27_10 : pyInt ((27 : ℚ) / 10) = 2 := by
  rw [pyInt, if_pos (by positivity),
    show ((27 : ℚ) / 10) = ((27 : ℤ) : ℚ) / ((10 : ℕ) : ℚ) by push_cast; ring,
    Rat.floor_intCast_div_natCast]
  decide

/-- Evaluation helper: rounding 2.7 gives 3. -/
theorem round_27_10 : round ((27 : ℚ) / 10) = 3 := by
  rw [round_eq]
  exact Int.floor_eq_iff.mpr (by norm_num)

/-- C4, counterexample: the section planner truncates elective demand where
the claim rounds it — for `electiveSample` over 10 students the code
creates ceil(trunc(2.7)/1) = 2 theory sections while the claimed formula
gives ceil(round(2.7)/1) = 3 — and the unified generator creates
max(1, ·) = 1 theory section for an elective with zero estimated students
where the claimed formula gives ceil(0/60) = 0. -/
theorem requiredSections_ne_claim :
    (calculateRequiredSections electiveSample 10).1 = 2 ∧
    (specRequiredSections electiveSample 10).1 = 3 ∧
    (calculateRequiredSections electiveSample 10).1 ≠ (specRequiredSections electiveSample 10).1 ∧
    uElectiveZero.estimatedStudents = 0 ∧
    ⌈(uElectiveZero.estimatedStudents : ℚ) / (uElectiveZero.maxTheoryCapacity : ℚ)⌉ = 0 ∧
    (uCalculateSections [uElectiveZero]).length = 1 := by
  have hu : uEstimatedStudents CourseKind.elective 0 200 = 0 := by
    simp [uEstimatedStudents, pyInt]
  have hest0 : uElectiveZero.estimatedStudents = 0 := by
    simp only [uElectiveZero]
    exact hu
  have hcode : (calculateRequiredSections electiveSample 10).1 = 2 := by
    simp only [calculateRequiredSections]
    norm_num [electiveSample]
    exact pyInt_27_10
  have hspec : (specRequiredSections electiveSample 10).1 = 3 := by
    simp only [specRequiredSections]
    norm_num [electiveSample]
    exact round_27_10
  refine ⟨hcode, hspec, by rw [hcode, hspec]; decide, hest0, ?_, ?_⟩
  · rw [hest0]
    norm_num
  · simp only [uCalculateSections, uTheorySectionsNeeded]
    norm_num [uElectiveZero, hu]
    rw [show Int.fdiv 59 60 = 0 from by decide]
    decide

/-- C4, amended: expected enrollment is `total_students` for every
non-elective course — `calculate_required_sections` keys on
`course_type == ELECTIVE`, not on the `is_compulsory` flag — and the
truncation `int(total_students * fraction)` (not `round`) for an
elective; it creates ceil(expected/max_theory_capacity) theory sections
when theory hours are positive and 0 otherwise, and
ceil(expected/max_lab_capacity) lab sections when lab hours are positive
and 0 otherwise, while the unified generator's `_calculate_sections`
creates `max(1, ceil(estimated/capacity))` sections in both its theory
and its lab branch; in particular the compulsory 200-student course with
capacity 60 and 3 weekly theory hours yields exactly 4 theory sections,
each holding 3 weekly meetings. -/
theorem sectionCounts_amended :
    (∀ (course : CourseDefinition) (totalStudents : ℕ),
      course.courseType ≠ .elective →
      calculateRequiredSections course totalStudents =
        (if course.theoryHours > 0 then
          ⌈(totalStudents : ℚ) / (course.maxTheoryCapacity : ℚ)⌉ else 0,
         if course.labHours > 0 then
          ⌈(totalStudents : ℚ) / (course.maxLabCapacity : ℚ)⌉ else 0)) ∧
    (∀ (course : CourseDefinition) (totalStudents : ℕ),
      course.courseType = .elective →
      calculateRequiredSections course totalStudents =
        (if course.theoryHours > 0 then
          ⌈(pyInt ((totalStudents : ℚ) * course.estimatedDemandPercentage) : ℚ) /
            (course.maxTheoryCapacity : ℚ)⌉ else 0,
         if course.labHours > 0 then
          ⌈(pyInt ((totalStudents : ℚ) * course.estimatedDemandPercentage) : ℚ) /
            (course.maxLabCapacity : ℚ)⌉ else 0)) ∧
    (∀ c : UCourse, 0 < c.maxTheoryCapacity → 0 < c.theoryHours →
      ((uCalculateSections [c]).filter (fun s => s.sectionType = USlotKind.theory)).length =
        (max 1 ⌈(c.estimatedStudents : ℚ) / (c.maxTheoryCapacity : ℚ)⌉).toNat) ∧
    (∀ c : UCourse, 0 < c.maxLabCapacity → 0 < c.labHours →
      ((uCalculateSections [c]).filter (fun s => s.sectionType = USlotKind.lab)).length =
        (max 1 ⌈(c.estimatedStudents : ℚ) / (c.maxLabCapacity : ℚ)⌉).toNat) ∧
    ((calculateRequiredSections coreSample200 200).1 = 4 ∧
      (generateAllSections theoryPool12 [] [coreSample200] 200).length = 4 ∧
      ∀ sec ∈ generateAllSections theoryPool12 [] [coreSample200] 200,
        sec.assignedSlots.length = 3 ∧ sec.sessionType = .theory) := by
  have hcount : calculateRequiredSections coreSample200 200 = (4, 0) := by
    have hceil := ceil_intCast_div_natCast 200 60 (by norm_num)
    push_cast at hceil
    norm_num at hceil
    have h4' : (calculateRequiredSections coreSample200 200).1 = 4 := by
      simp only [calculateRequiredSections]
      norm_num [coreSample200,
        show (CourseKind.core = CourseKind.elective) = False from by simp]
      exact hceil
    have h0 : (calculateRequiredSections coreSample200 200).2 = 0 := by
      simp [calculateRequiredSections, coreSample200]
    exact Prod.ext h4' h0
  have hrun : generateAllSections theoryPool12 [] [coreSample200] 200 =
      (genTheoryLoop coreSample200 theoryPool12 4 0 ([], [])).1 := by
    simp [generateAllSections, sortCourses, insertSortedCourse, genCourseSections, hcount,
      genLabLoop]
  refine ⟨?_, ?_, ?_, ?_, ?_, ?_, ?_⟩
  · intro course t h1
    simp [calculateRequiredSections, h1]
  · intro course t h
    simp [calculateRequiredSections, h]
  · intro c hcap hth
    have hlen : ((uCalculateSections [c]).filter
        (fun s => s.sectionType = USlotKind.theory)).length =
        (uTheorySectionsNeeded c).toNat := by
      by_cases hl : c.labHours > 0 <;>
        simp [uCalculateSections, hth, hl, List.filter_map, Function.comp_def]
    rw [hlen]
    unfold uTheorySectionsNeeded
    rw [fdiv_pred_eq_ceil _ _ hcap]
  · intro c hcap hl
    have hlen : ((uCalculateSections [c]).filter
        (fun s => s.sectionType = USlotKind.lab)).length =
        (uLabSectionsNeeded c).toNat := by
      by_cases hth : c.theoryHours > 0 <;>
        simp [uCalculateSections, hth, hl, List.filter_map, Function.comp_def]
    rw [hlen]
    unfold uLabSectionsNeeded
    rw [fdiv_pred_eq_ceil _ _ hcap]
  · exact congrArg Prod.fst hcount
  · rw [hrun]
    decide
  · rw [hrun]
    decide

/-- Witness for `sectionCounts_amended` at concrete inputs. -/
theorem sectionCounts_amended_witness :
    calculateRequiredSections coreSampleDM 10 =
      (if coreSampleDM.theoryHours > 0 then
        ⌈((10 : ℕ) : ℚ) / (coreSampleDM.maxTheoryCapacity : ℚ)⌉ else 0,
       if coreSampleDM.labHours > 0 then
        ⌈((10 : ℕ) : ℚ) / (coreSampleDM.maxLabCapacity : ℚ)⌉ else 0) ∧
    calculateRequiredSections electiveSample 10 =
      (if electiveSample.theoryHours > 0 then
        ⌈(pyInt (((10 : ℕ) : ℚ) * electiveSample.estimatedDemandPercentage) : ℚ) /
          (electiveSample.maxTheoryCapacity : ℚ)⌉ else 0,
       if electiveSample.labHours > 0 then
        ⌈(pyInt (((10 : ℕ) : ℚ) * electiveSample.estimatedDemandPercentage) : ℚ) /
          (electiveSample.maxLabCapacity : ℚ)⌉ else 0) ∧
    ((uCalculateSections [uElectiveZero]).filter
        (fun s => s.sectionType = USlotKind.theory)).length =
      (max 1 ⌈(uElectiveZero.estimatedStudents : ℚ) /
        (uElectiveZero.maxTheoryCapacity : ℚ)⌉).toNat ∧
    ((uCalculateSections [uCoreLab]).filter
        (fun s => s.sectionType = USlotKind.lab)).length =
      (max 1 ⌈(uCoreLab.estimatedStudents : ℚ) /
        (uCoreLab.maxLabCapacity : ℚ)⌉).toNat :=
  ⟨sectionCounts_amended.1 coreSampleDM 10 (by decide),
   sectionCounts_amended.2.1 electiveSample 10 (by decide),
   sectionCounts_amended.2.2.1 uElectiveZero (by decide) (by decide),
   sectionCounts_amended.2.2.2.1 uCoreLab (by decide) (by decide)⟩

/-- Inserting into a sorted list only adds the inserted element. -/
theorem mem_insertSortedCourse {c d : CourseDefinition} {l : List CourseDefinition}
    (h : d ∈ insertSortedCourse c l) : d = c ∨ d ∈ l := by
  induction l with
  | nil => simpa [insertSortedCourse] using h
  | cons e rest ih =>
    simp only [insertSortedCourse] at h
    split at h
    · rcases List.mem_cons.mp h with h' | h'
      · exact Or.inl h'
      · exact Or.inr h'
    · rcases List.mem_cons.mp h with h' | h'
      · exact Or.inr (by simp [h'])
      · rcases ih h' with h'' | h''
        · exact Or.inl h''
        · exact Or.inr (List.mem_cons_of_mem _ h'')

/-- Sorting the course list does not add courses. -/
theorem mem_sortCourses {d : CourseDefinition} {l : List CourseDefinition}
    (h : d ∈ sortCourses l) : d ∈ l := by
  induction l with
  | nil => simp [sortCourses] at h
  | cons c rest ih =>
    rcases mem_insertSortedCourse (l := sortCourses rest) (by simpa [sortCourses] using h)
      with h' | h'
    · simp [h']
    · exact List.mem_cons_of_mem _ (ih h')

/-- Every section that the theory loop adds belongs to the course being
processed, is a theory section, and carries the course's full theory
capacity. -/
theorem genTheoryLoop_mem (course : CourseDefinition) (pool : List String) :
    ∀ (k i : ℕ) (st : List SectionDefinition × List String) (sec : SectionDefinition),
      sec ∈ (genTheoryLoop course pool k i st).1 →
      sec ∈ st.1 ∨ (sec.courseId = course.courseId ∧
        sec.sessionType = SessionKind.theory ∧ sec.maxCapacity = course.maxTheoryCapacity) := by
  intro k
  induction k with
  | zero => intro i st sec h; exact Or.inl h
  | succ k ih =>
    intro i st sec h
    obtain ⟨secs, used⟩ := st
    simp only [genTheoryLoop] at h
    split at h
    · rcases ih _ _ _ h with h' | h'
      · rcases List.mem_append.mp h' with h'' | h''
        · exact Or.inl h''
        · right
          simp only [List.mem_singleton] at h''
          subst h''
          exact ⟨rfl, rfl, rfl⟩
      · exact Or.inr h'
    · exact ih _ _ _ h

/-- Every section that the lab loop adds belongs to the course being
processed, is a lab section, and carries the course's full lab capacity. -/
theorem genLabLoop_mem (course : CourseDefinition) (pool : List String) :
    ∀ (k i : ℕ) (st : List SectionDefinition × List String) (sec : SectionDefinition),
      sec ∈ (genLabLoop course pool k i st).1 →
      sec ∈ st.1 ∨ (sec.courseId = course.courseId ∧
        sec.sessionType = SessionKind.lab ∧ sec.maxCapacity = course.maxLabCapacity) := by
  intro k
  induction k with
  | zero => intro i st sec h; exact Or.inl h
  | succ k ih =>
    intro i st sec h
    obtain ⟨secs, used⟩ := st
    simp only [genLabLoop] at h
    split at h
    · rcases ih _ _ _ h with h' | h'
      · rcases List.mem_append.mp h' with h'' | h''
        · exact Or.inl h''
        · right
          simp only [List.mem_singleton] at h''
          subst h''
          exact ⟨rfl, rfl, rfl⟩
      · exact Or.inr h'
    · exact ih _ _ _ h

/-- Provenance of a section produced by one course's processing step. -/
theorem genCourseSections_mem (theoryPool labPool : List String) (total : ℕ)
    (st : List SectionDefinition × List String) (course : CourseDefinition)
    (sec : SectionDefinition)
    (h : sec ∈ (genCourseSections theoryPool labPool total st course).1) :
    sec ∈ st.1 ∨ (sec.courseId = course.courseId ∧
      ((sec.sessionType = SessionKind.theory ∧ sec.maxCapacity = course.maxTheoryCapacity) ∨
       (sec.sessionType = SessionKind.lab ∧ sec.maxCapacity = course.maxLabCapacity))) := by
  unfold genCourseSections at h
  rcases genLabLoop_mem course labPool _ _ _ _ h with h' | h'
  · rcases genTheoryLoop_mem course theoryPool _ _ _ _ h' with h'' | h''
    · exact Or.inl h''
    · exact Or.inr ⟨h''.1, Or.inl ⟨h''.2.1, h''.2.2⟩⟩
  · exact Or.inr ⟨h'.1, Or.inr ⟨h'.2.1, h'.2.2⟩⟩

/-- Provenance of a section along the course fold. -/
theorem foldCourses_mem (theoryPool labPool : List String) (total : ℕ) :
    ∀ (l : List CourseDefinition) (st : List SectionDefinition × List String)
      (sec : SectionDefinition),
      sec ∈ (l.foldl (genCourseSections theoryPool labPool total) st).1 →
      sec ∈ st.1 ∨ ∃ course ∈ l, sec.courseId = course.courseId ∧
        ((sec.sessionType = SessionKind.theory ∧ sec.maxCapacity = course.maxTheoryCapacity) ∨
         (sec.sessionType = SessionKind.lab ∧ sec.maxCapacity = course.maxLabCapacity)) := by
  intro l
  induction l with
  | nil => intro st sec h; exact Or.inl h
  | cons c rest ih =>
    intro st sec h
    rcases ih _ _ h with h' | h'
    · rcases genCourseSections_mem _ _ _ _ _ _ h' with h'' | h''
      · exact Or.inl h''
      · exact Or.inr ⟨c, List.mem_cons_self c rest, h''⟩
    · obtain ⟨course, hmem, hprops⟩ := h'
      exact Or.inr ⟨course, List.mem_cons_of_mem _ hmem, hprops⟩

/-- Sample unified-generator core course: 10 estimated students under a
theory capacity of 60. -/
def uCourseSmall : UCourse :=
  { courseId := "CS", courseName := "CS", courseType := .core, credits := 3,
    theoryHours := 3, labHours := 0, maxTheoryCapacity := 60, maxLabCapacity := 30,
    estimatedStudents := 10, isCompulsory := true }

/-- C6, counterexample: a compulsory course of 10 students under a theory
capacity of 60 is materialized with section capacity 60 by both planners,
not min(60, 10) = 10. -/
theorem sectionCapacity_ne_min :
    ((generateAllSections ["A1", "B1", "C1"] [] [coreSampleDM] 10).map
      (fun s => s.maxCapacity)) = [60] ∧
    min coreSampleDM.maxTheoryCapacity 10 = 10 ∧ (60 : ℕ) ≠ 10 ∧
    ((uCalculateSections [uCourseSmall]).map (fun s => s.maxStudents)) = [60] ∧
    min uCourseSmall.maxTheoryCapacity uCourseSmall.estimatedStudents = 10 := by
  have hceil := ceil_intCast_div_natCast 10 60 (by norm_num)
  push_cast at hceil
  norm_num at hceil
  have hcount : calculateRequiredSections coreSampleDM 10 = (1, 0) := by
    have h1 : (calculateRequiredSections coreSampleDM 10).1 = 1 := by
      simp only [calculateRequiredSections]
      norm_num [coreSampleDM,
        show (CourseKind.core = CourseKind.elective) = False from by simp]
      exact hceil
    have h0 : (calculateRequiredSections coreSampleDM 10).2 = 0 := by
      simp [calculateRequiredSections, coreSampleDM]
    exact Prod.ext h1 h0
  have hrun : generateAllSections ["A1", "B1", "C1"] [] [coreSampleDM] 10 =
      (genTheoryLoop coreSampleDM ["A1", "B1", "C1"] 1 0 ([], [])).1 := by
    simp [generateAllSections, sortCourses, insertSortedCourse, genCourseSections, hcount,
      genLabLoop]
  refine ⟨by rw [hrun]; decide, by decide, by decide, by decide, by decide⟩

/-- C6, amended: every section either planner materializes carries as
capacity its course's configured maximum (theory or lab according to the
section type), independent of the expected enrollment — not the minimum of
the two. -/
theorem sectionCapacity_amended :
    (∀ (theoryPool labPool : List String) (courses : List CourseDefinition) (total : ℕ),
      ∀ sec ∈ generateAllSections theoryPool labPool courses total,
        ∃ course ∈ courses, sec.courseId = course.courseId ∧
          ((sec.sessionType = SessionKind.theory ∧ sec.maxCapacity = course.maxTheoryCapacity) ∨
           (sec.sessionType = SessionKind.lab ∧ sec.maxCapacity = course.maxLabCapacity))) ∧
    (∀ (courses : List UCourse), ∀ sec ∈ uCalculateSections courses,
      ∃ course ∈ courses, sec.courseId = course.courseId ∧
        ((sec.sectionType = USlotKind.theory ∧ sec.maxStudents = course.maxTheoryCapacity) ∨
         (sec.sectionType = USlotKind.lab ∧ sec.maxStudents = course.maxLabCapacity))) := by
  constructor
  · intro theoryPool labPool courses total sec h
    unfold generateAllSections at h
    rcases foldCourses_mem _ _ _ _ _ _ h with h' | h'
    · simp at h'
    · obtain ⟨course, hmem, hprops⟩ := h'
      exact ⟨course, mem_sortCourses hmem, hprops⟩
  · intro courses sec h
    simp only [uCalculateSections, List.mem_flatMap] at h
    obtain ⟨course, hmem, hsec⟩ := h
    refine ⟨course, hmem, ?_⟩
    rcases List.mem_append.mp hsec with h' | h'
    · split at h'
      · simp only [List.mem_map] at h'
        obtain ⟨i, _, rfl⟩ := h'
        simp
      · simp at h'
    · split at h'
      · simp only [List.mem_map] at h'
        obtain ⟨i, _, rfl⟩ := h'
        simp
      · simp at h'

/-- Witness for `sectionCapacity_amended` at concrete inputs. -/
theorem sectionCapacity_amended_witness :
    (∃ course ∈ [coreSampleDM],
      (SectionDefinition.mk "DM_TH_SEC1" "DM" "DM" CourseKind.core SessionKind.theory 60 []
        ["A1", "B1", "C1"] false).courseId = course.courseId ∧
      (((SectionDefinition.mk "DM_TH_SEC1" "DM" "DM" CourseKind.core SessionKind.theory 60 []
        ["A1", "B1", "C1"] false).sessionType = SessionKind.theory ∧
        (SectionDefinition.mk "DM_TH_SEC1" "DM" "DM" CourseKind.core SessionKind.theory 60 []
        ["A1", "B1", "C1"] false).maxCapacity = course.maxTheoryCapacity) ∨
       ((SectionDefinition.mk "DM_TH_SEC1" "DM" "DM" CourseKind.core SessionKind.theory 60 []
        ["A1", "B1", "C1"] false).sessionType = SessionKind.lab ∧
        (SectionDefinition.mk "DM_TH_SEC1" "DM" "DM" CourseKind.core SessionKind.theory 60 []
        ["A1", "B1", "C1"] false).maxCapacity = course.maxLabCapacity))) ∧
    (∃ course ∈ [uCourseSmall],
      (USection.mk "CS_T1" "CS" USlotKind.theory 60 "" "" [] []).courseId = course.courseId ∧
      (((USection.mk "CS_T1" "CS" USlotKind.theory 60 "" "" [] []).sectionType =
          USlotKind.theory ∧
        (USection.mk "CS_T1" "CS" USlotKind.theory 60 "" "" [] []).maxStudents =
          course.maxTheoryCapacity) ∨
       ((USection.mk "CS_T1" "CS" USlotKind.theory 60 "" "" [] []).sectionType =
          USlotKind.lab ∧
        (USection.mk "CS_T1" "CS" USlotKind.theory 60 "" "" [] []).maxStudents =
          course.maxLabCapacity))) := by
  constructor
  · refine sectionCapacity_amended.1 ["A1", "B1", "C1"] [] [coreSampleDM] 10 _ ?_
    have hceil := ceil_intCast_div_natCast 10 60 (by norm_num)
    push_cast at hceil
    norm_num at hceil
    have hcount : calculateRequiredSections coreSampleDM 10 = (1, 0) := by
      have h1 : (calculateRequiredSections coreSampleDM 10).1 = 1 := by
        simp only [calculateRequiredSections]
        norm_num [coreSampleDM,
          show (CourseKind.core = CourseKind.elective) = False from by simp]
        exact hceil
      have h0 : (calculateRequiredSections coreSampleDM 10).2 = 0 := by
        simp [calculateRequiredSections, coreSampleDM]
      exact Prod.ext h1 h0
    have hrun : generateAllSections ["A1", "B1", "C1"] [] [coreSampleDM] 10 =
        (genTheoryLoop coreSampleDM ["A1", "B1", "C1"] 1 0 ([], [])).1 := by
      simp [generateAllSections, sortCourses, insertSortedCourse, genCourseSections, hcount,
        genLabLoop]
    rw [hrun]
    decide
  · exact sectionCapacity_amended.2 [uCourseSmall] _ (by decide)

/-! ## Student allocators (`comprehensive_sectioning.py`, `unified_timetable_generator.py`) -/

/-- Model of `comprehensive_sectioning.StudentAllocation`. The
`occupied_slots` set is modelled as a list used only through membership. -/
structure StudentAllocation where
  studentId : String
  allocatedSections : List (String × String)
  totalCredits : ℤ
  occupiedSlots : List String
deriving DecidableEq

/-- The course keys of `sections_by_course` in Python dict insertion order:
first appearance of each `course_id` in the section list. -/
def uniqueCourseIds (sections : List SectionDefinition) : List String :=
  sections.foldl (fun acc s => if s.courseId ∈ acc then acc else acc ++ [s.courseId]) []

/-- One course's `for section in course_sections` scan of
`allocate_students_to_sections`: find the first section of the course with
free capacity whose slots do not intersect the student's occupied slots,
and enroll the student there. Returns the updated section list together
with the chosen section's id and slots. -/
def tryAssign (studentId courseId : String) (occupied : List String) :
    List SectionDefinition → Option (List SectionDefinition × String × List String)
  | [] => none
  | s :: rest =>
    if s.courseId = courseId ∧ s.enrolledStudents.length < s.maxCapacity ∧
        (∀ x ∈ s.assignedSlots, x ∉ occupied) then
      some ({ s with enrolledStudents := s.enrolledStudents ++ [studentId] } :: rest,
        s.sectionId, s.assignedSlots)
    else (tryAssign studentId courseId occupied rest).map (fun r => (s :: r.1, r.2))

/-- One course of one student's pass in `allocate_students_to_sections`:
try to enroll and record the assignment and the newly occupied slots. -/
def allocCourseStep (studentId : String)
    (st : List SectionDefinition × StudentAllocation) (c : String) :
    List SectionDefinition × StudentAllocation :=
  match tryAssign studentId c st.2.occupiedSlots st.1 with
  | some (secs', sid, slots) =>
    (secs',
      { st.2 with
        allocatedSections := st.2.allocatedSections ++ [(c, sid)]
        occupiedSlots := st.2.occupiedSlots ++ slots })
  | none => st

/-- One student's pass over all courses in
`allocate_students_to_sections`. -/
def allocateStudent (courseIds : List String) (sections : List SectionDefinition)
    (studentId : String) : List SectionDefinition × StudentAllocation :=
  courseIds.foldl (allocCourseStep studentId)
    (sections,
      { studentId := studentId, allocatedSections := [], totalCredits := 0,
        occupiedSlots := [] })

/-- Per-student step of `allocate_students_to_sections`. -/
def allocStudentStep (courseIds : List String)
    (st : List SectionDefinition × List StudentAllocation) (sid : String) :
    List SectionDefinition × List StudentAllocation :=
  let r := allocateStudent courseIds st.1 sid
  (r.1, st.2 ++ [r.2])

/-- Model of
`ComprehensiveSectioningEngine.allocate_students_to_sections`: group the
sections by course (insertion order), then allocate each student to one
section per course, checking capacity and slot conflicts; returns the
mutated sections and the per-student allocations. -/
def allocateStudentsToSections (sections : List SectionDefinition)
    (studentIds : List String) : List SectionDefinition × List StudentAllocation :=
  studentIds.foldl (allocStudentStep (uniqueCourseIds sections)) (sections, [])

/-- The course keys of the unified generator's `course_sections` grouping. -/
def uUniqueCourseIds (sections : List USection) : List String :=
  sections.foldl (fun acc s => if s.courseId ∈ acc then acc else acc ++ [s.courseId]) []

/-- The `for section in sections_list` scan of
`UnifiedTimetableGenerator._allocate_students`: the first section of the
course with free capacity — no slot-conflict check. -/
def uTryAssign (studentId courseId : String) :
    List USection → Option (List USection × String)
  | [] => none
  | s :: rest =>
    if s.courseId = courseId ∧ (s.enrolledStudents.length : ℤ) < s.maxStudents then
      some ({ s with enrolledStudents := s.enrolledStudents ++ [studentId] } :: rest,
        s.sectionId)
    else (uTryAssign studentId courseId rest).map (fun r => (s :: r.1, r.2))

/-- One course step of `_allocate_students` for one student. The `skip`
oracle models the `random.random() > estimated/len(student_ids)` draw for
electives; a missing course in the catalog models the `next(...)`
StopIteration and aborts the whole allocation. -/
def uAllocCourse (courses : List UCourse) (skip : String → String → Bool)
    (studentId : String) (st : Option (List USection × List (String × String)))
    (courseId : String) : Option (List USection × List (String × String)) :=
  match st with
  | none => none
  | some (secs, alloc) =>
    match courses.find? (fun c => c.courseId = courseId) with
    | none => none
    | some course =>
      if course.courseType = CourseKind.elective ∧ skip studentId courseId then
        some (secs, alloc)
      else
        match uTryAssign studentId courseId secs with
        | some (secs', sid) => some (secs', alloc ++ [(courseId, sid)])
        | none => some (secs, alloc)

/-- Model of `UnifiedTimetableGenerator._allocate_students`. -/
def uAllocateStudents (courses : List UCourse) (studentIds : List String)
    (sections : List USection) (skip : String → String → Bool) :
    Option (List USection × List (String × List (String × String))) :=
  studentIds.foldl
    (fun st sid =>
      match st with
      | none => none
      | some (secs, allocs) =>
        match (uUniqueCourseIds sections).foldl (uAllocCourse courses skip sid)
            (some (secs, [])) with
        | none => none
        | some (secs', alloc) => some (secs', allocs ++ [(sid, alloc)]))
    (some (sections, []))

/-- The immutable part of a section during student allocation: id, course
and slots (only `enrolled_students` is ever mutated). -/
def secKey (s : SectionDefinition) : String × String × List String :=
  (s.sectionId, s.courseId, s.assignedSlots)

/-- Enrollment does not change section ids, courses or slots. -/
theorem tryAssign_secKey {studentId courseId : String} {occ : List String} :
    ∀ {secs : List SectionDefinition} {res},
      tryAssign studentId courseId occ secs = some res →
      res.1.map secKey = secs.map secKey := by
  intro secs
  induction secs with
  | nil => intro res h; simp [tryAssign] at h
  | cons s rest ih =>
    intro res h
    simp only [tryAssign] at h
    split at h
    · injection h with h'
      subst h'
      simp [secKey]
    · obtain ⟨r, hr, hfr⟩ := Option.map_eq_some'.mp h
      subst hfr
      simp [ih hr]

/-- The section an assignment picks is a member of the list, matches the
course, has free capacity, and its slots avoid the occupied set. -/
theorem tryAssign_chosen {studentId courseId : String} {occ : List String} :
    ∀ {secs : List SectionDefinition} {res},
      tryAssign studentId courseId occ secs = some res →
      ∃ t ∈ secs, t.courseId = courseId ∧ t.sectionId = res.2.1 ∧
        t.assignedSlots = res.2.2 ∧ t.enrolledStudents.length < t.maxCapacity ∧
        ∀ x ∈ t.assignedSlots, x ∉ occ := by
  intro secs
  induction secs with
  | nil => intro res h; simp [tryAssign] at h
  | cons s rest ih =>
    intro res h
    simp only [tryAssign] at h
    split at h
    · rename_i hcond
      injection h with h'
      subst h'
      exact ⟨s, List.mem_cons_self _ _, hcond.1, rfl, rfl, hcond.2.1, hcond.2.2⟩
    · obtain ⟨r, hr, hfr⟩ := Option.map_eq_some'.mp h
      subst hfr
      obtain ⟨t, ht, hprops⟩ := ih hr
      exact ⟨t, List.mem_cons_of_mem _ ht, hprops⟩

/-- Enrollment keeps every section within its capacity. -/
theorem tryAssign_capacity {studentId courseId : String} {occ : List String} :
    ∀ {secs : List SectionDefinition} {res},
      tryAssign studentId courseId occ secs = some res →
      (∀ s ∈ secs, s.enrolledStudents.length ≤ s.maxCapacity) →
      ∀ s ∈ res.1, s.enrolledStudents.length ≤ s.maxCapacity := by
  intro secs
  induction secs with
  | nil => intro res h; simp [tryAssign] at h
  | cons s rest ih =>
    intro res h hcap
    simp only [tryAssign] at h
    split at h
    · rename_i hcond
      injection h with h'
      subst h'
      intro s' hs'
      rcases List.mem_cons.mp hs' with h'' | h''
      · subst h''
        simpa using hcond.2.1
      · exact hcap _ (List.mem_cons_of_mem _ h'')
    · obtain ⟨r, hr, hfr⟩ := Option.map_eq_some'.mp h
      subst hfr
      intro s' hs'
      rcases List.mem_cons.mp hs' with h'' | h''
      · subst h''
        exact hcap _ (List.mem_cons_self _ _)
      · exact ih hr (fun u hu => hcap _ (List.mem_cons_of_mem _ hu)) _ h''

/-- Invariant carried through one student's allocation: every section the
student already holds (identified by section id within the immutable
skeleton `sk`) has its slots inside the student's occupied set, and any
two held sections have disjoint slots. -/
def GoodAlloc (sk : List (String × String × List String)) (a : StudentAllocation) : Prop :=
  (∀ p ∈ a.allocatedSections, ∀ e ∈ sk, e.1 = p.2 → ∀ x ∈ e.2.2, x ∈ a.occupiedSlots) ∧
  List.Pairwise
    (fun p q => ∀ e ∈ sk, ∀ f ∈ sk, e.1 = p.2 → f.1 = q.2 → ∀ x ∈ e.2.2, x ∉ f.2.2)
    a.allocatedSections

/-- One allocation step preserves the section skeleton. -/
theorem allocCourseStep_secKey (studentId : String)
    (st : List SectionDefinition × StudentAllocation) (c : String) :
    (allocCourseStep studentId st c).1.map secKey = st.1.map secKey := by
  unfold allocCourseStep
  cases h : tryAssign studentId c st.2.occupiedSlots st.1 with
  | none => rfl
  | some r =>
    obtain ⟨secs', sid, slots⟩ := r
    simpa using tryAssign_secKey h

/-- One allocation step preserves the per-student invariant. -/
theorem allocCourseStep_good {sk : List (String × String × List String)}
    (hnd : (sk.map Prod.fst).Nodup) (studentId c : String)
    (st : List SectionDefinition × StudentAllocation)
    (hsk : st.1.map secKey = sk) (hg : GoodAlloc sk st.2) :
    GoodAlloc sk (allocCourseStep studentId st c).2 := by
  unfold allocCourseStep
  cases h : tryAssign studentId c st.2.occupiedSlots st.1 with
  | none => exact hg
  | some r =>
    obtain ⟨secs', sid, slots⟩ := r
    obtain ⟨t, htmem, htc, htid, htslots, htcap, htdisj⟩ := tryAssign_chosen h
    have htk : secKey t ∈ sk := hsk ▸ List.mem_map_of_mem secKey htmem
    constructor
    · intro p hp e he hid x hx
      rcases List.mem_append.mp hp with hp' | hp'
      · exact List.mem_append_left _ (hg.1 p hp' e he hid x hx)
      · simp only [List.mem_singleton] at hp'
        subst hp'
        have he' : e = secKey t := by
          refine List.inj_on_of_nodup_map hnd he htk ?_
          simp only [secKey]
          rw [hid, htid]
        subst he'
        refine List.mem_append_right _ ?_
        simp only [secKey] at hx
        rw [htslots] at hx
        exact hx
    · rw [List.pairwise_append]
      refine ⟨hg.2, List.pairwise_singleton _ _, ?_⟩
      intro p hp q hq
      simp only [List.mem_singleton] at hq
      subst hq
      intro e he f hf hep hfq x hx
      have hf' : f = secKey t := by
        refine List.inj_on_of_nodup_map hnd hf htk ?_
        simp only [secKey]
        rw [hfq, htid]
      have hxocc : x ∈ st.2.occupiedSlots := hg.1 p hp e he hep x hx
      intro hxf
      rw [hf'] at hxf
      simp only [secKey] at hxf
      exact htdisj x hxf hxocc

/-- One allocation step keeps all sections within capacity. -/
theorem allocCourseStep_capacity (studentId c : String)
    (st : List SectionDefinition × StudentAllocation)
    (hcap : ∀ s ∈ st.1, s.enrolledStudents.length ≤ s.maxCapacity) :
    ∀ s ∈ (allocCourseStep studentId st c).1, s.enrolledStudents.length ≤ s.maxCapacity := by
  unfold allocCourseStep
  cases h : tryAssign studentId c st.2.occupiedSlots st.1 with
  | none => exact hcap
  | some r =>
    obtain ⟨secs', sid, slots⟩ := r
    exact tryAssign_capacity h hcap

/-- One student's allocation preserves the skeleton and the invariant of
the produced allocation. -/
theorem allocateStudent_invariant {sk : List (String × String × List String)}
    (hnd : (sk.map Prod.fst).Nodup) (studentId : String) :
    ∀ (cids : List String) (st : List SectionDefinition × StudentAllocation),
      st.1.map secKey = sk → GoodAlloc sk st.2 →
      ((cids.foldl (allocCourseStep studentId) st).1.map secKey = sk ∧
        GoodAlloc sk (cids.foldl (allocCourseStep studentId) st).2) := by
  intro cids
  induction cids with
  | nil => intro st h1 h2; exact ⟨h1, h2⟩
  | cons c rest ih =>
    intro st h1 h2
    rw [List.foldl_cons]
    exact ih _ ((allocCourseStep_secKey studentId st c).trans h1)
      (allocCourseStep_good hnd studentId c st h1 h2)

/-- One student's allocation keeps all sections within capacity. -/
theorem allocateStudent_capacity (studentId : String) :
    ∀ (cids : List String) (st : List SectionDefinition × StudentAllocation),
      (∀ s ∈ st.1, s.enrolledStudents.length ≤ s.maxCapacity) →
      ∀ s ∈ (cids.foldl (allocCourseStep studentId) st).1,
        s.enrolledStudents.length ≤ s.maxCapacity := by
  intro cids
  induction cids with
  | nil => intro st h; exact h
  | cons c rest ih =>
    intro st h
    rw [List.foldl_cons]
    exact ih _ (allocCourseStep_capacity studentId c st h)

/-- The full allocator preserves the skeleton and produces only
invariant-satisfying allocations. -/
theorem allocateStudentsToSections_invariant
    (sections : List SectionDefinition) (studentIds : List String)
    (hnd : ((sections.map secKey).map Prod.fst).Nodup) :
    (allocateStudentsToSections sections studentIds).1.map secKey = sections.map secKey ∧
    ∀ a ∈ (allocateStudentsToSections sections studentIds).2,
      GoodAlloc (sections.map secKey) a := by
  unfold allocateStudentsToSections
  suffices h : ∀ (sids : List String) (st : List SectionDefinition × List StudentAllocation),
      st.1.map secKey = sections.map secKey →
      (∀ a ∈ st.2, GoodAlloc (sections.map secKey) a) →
      ((sids.foldl (allocStudentStep (uniqueCourseIds sections)) st).1.map secKey =
        sections.map secKey ∧
       ∀ a ∈ (sids.foldl (allocStudentStep (uniqueCourseIds sections)) st).2,
         GoodAlloc (sections.map secKey) a) by
    exact h studentIds (sections, []) rfl (by simp)
  intro sids
  induction sids with
  | nil => intro st h1 h3; exact ⟨h1, h3⟩
  | cons sid rest ih =>
    intro st h1 h3
    rw [List.foldl_cons]
    have hinit : GoodAlloc (sections.map secKey) ⟨sid, [], 0, []⟩ := ⟨by simp, by simp⟩
    have hstep := allocateStudent_invariant hnd sid (uniqueCourseIds sections)
      (st.1, ⟨sid, [], 0, []⟩) h1 hinit
    refine ih (allocStudentStep (uniqueCourseIds sections) st sid) hstep.1 ?_
    intro a ha
    have ha' : a ∈ st.2 ++ [(allocateStudent (uniqueCourseIds sections) st.1 sid).2] := ha
    rcases List.mem_append.mp ha' with ha'' | ha''
    · exact h3 a ha''
    · simp only [List.mem_singleton] at ha''
      subst ha''
      exact hstep.2

/-- The full allocator keeps all sections within capacity. -/
theorem allocateStudentsToSections_capacity
    (sections : List SectionDefinition) (studentIds : List String)
    (hcap : ∀ s ∈ sections, s.enrolledStudents.length ≤ s.maxCapacity) :
    ∀ s ∈ (allocateStudentsToSections sections studentIds).1,
      s.enrolledStudents.length ≤ s.maxCapacity := by
  unfold allocateStudentsToSections
  suffices h : ∀ (sids : List String) (st : List SectionDefinition × List StudentAllocation),
      (∀ s ∈ st.1, s.enrolledStudents.length ≤ s.maxCapacity) →
      ∀ s ∈ (sids.foldl (allocStudentStep (uniqueCourseIds sections)) st).1,
        s.enrolledStudents.length ≤ s.maxCapacity by
    exact h studentIds (sections, []) hcap
  intro sids
  induction sids with
  | nil => intro st h; exact h
  | cons sid rest ih =>
    intro st h
    rw [List.foldl_cons]
    exact ih _ (allocateStudent_capacity sid (uniqueCourseIds sections)
      (st.1, ⟨sid, [], 0, []⟩) h)

/-- Unified-generator enrollment keeps every section within capacity. -/
theorem uTryAssign_capacity {studentId courseId : String} :
    ∀ {secs : List USection} {res}, uTryAssign studentId courseId secs = some res →
      (∀ s ∈ secs, (s.enrolledStudents.length : ℤ) ≤ s.maxStudents) →
      ∀ s ∈ res.1, (s.enrolledStudents.length : ℤ) ≤ s.maxStudents := by
  intro secs
  induction secs with
  | nil => intro res h; simp [uTryAssign] at h
  | cons s rest ih =>
    intro res h hcap
    simp only [uTryAssign] at h
    split at h
    · rename_i hcond
      injection h with h'
      subst h'
      intro s' hs'
      rcases List.mem_cons.mp hs' with h'' | h''
      · subst h''
        have := hcond.2
        simp only [List.length_append, List.length_singleton]
        push_cast
        omega
      · exact hcap _ (List.mem_cons_of_mem _ h'')
    · obtain ⟨r, hr, hfr⟩ := Option.map_eq_some'.mp h
      subst hfr
      intro s' hs'
      rcases List.mem_cons.mp hs' with h'' | h''
      · subst h''
        exact hcap _ (List.mem_cons_self _ _)
      · exact ih hr (fun u hu => hcap _ (List.mem_cons_of_mem _ hu)) _ h''

/-- One course step of the unified allocator keeps sections within
capacity. -/
theorem uAllocCourse_capacity (courses : List UCourse) (skip : String → String → Bool)
    (studentId : String) (st : Option (List USection × List (String × String)))
    (cid : String)
    (hok : ∀ r, st = some r → ∀ s ∈ r.1, (s.enrolledStudents.length : ℤ) ≤ s.maxStudents) :
    ∀ r', uAllocCourse courses skip studentId st cid = some r' →
      ∀ s ∈ r'.1, (s.enrolledStudents.length : ℤ) ≤ s.maxStudents := by
  intro r' h
  cases st with
  | none => simp [uAllocCourse] at h
  | some p =>
    obtain ⟨secs, alloc⟩ := p
    cases hfind : courses.find? (fun c => decide (c.courseId = cid)) with
    | none =>
      rw [show uAllocCourse courses skip studentId (some (secs, alloc)) cid = none by
        simp [uAllocCourse, hfind]] at h
      exact absurd h (by simp)
    | some course =>
      by_cases hsk : course.courseType = CourseKind.elective ∧ skip studentId cid
      · rw [show uAllocCourse courses skip studentId (some (secs, alloc)) cid =
            some (secs, alloc) by simp [uAllocCourse, hfind, hsk]] at h
        injection h with h'
        subst h'
        exact hok _ rfl
      · cases htry : uTryAssign studentId cid secs with
        | some r =>
          obtain ⟨secs', sid⟩ := r
          rw [show uAllocCourse courses skip studentId (some (secs, alloc)) cid =
              some (secs', alloc ++ [(cid, sid)]) by
            simp [uAllocCourse, hfind, hsk, htry]] at h
          injection h with h'
          subst h'
          exact uTryAssign_capacity htry (hok _ rfl)
        | none =>
          rw [show uAllocCourse courses skip studentId (some (secs, alloc)) cid =
              some (secs, alloc) by simp [uAllocCourse, hfind, hsk, htry]] at h
          injection h with h'
          subst h'
          exact hok _ rfl

/-- The unified allocator keeps all sections within capacity. -/
theorem uAllocateStudents_capacity (courses : List UCourse) (studentIds : List String)
    (sections : List USection) (skip : String → String → Bool)
    (hcap : ∀ s ∈ sections, (s.enrolledStudents.length : ℤ) ≤ s.maxStudents) :
    ∀ r, uAllocateStudents courses studentIds sections skip = some r →
      ∀ s ∈ r.1, (s.enrolledStudents.length : ℤ) ≤ s.maxStudents := by
  have hinner : ∀ (cids : List String) (studentId : String)
      (st : Option (List USection × List (String × String))),
      (∀ r, st = some r → ∀ s ∈ r.1, (s.enrolledStudents.length : ℤ) ≤ s.maxStudents) →
      ∀ r', cids.foldl (uAllocCourse courses skip studentId) st = some r' →
        ∀ s ∈ r'.1, (s.enrolledStudents.length : ℤ) ≤ s.maxStudents := by
    intro cids
    induction cids with
    | nil => intro studentId st hok r' h; exact hok r' h
    | cons c rest ih =>
      intro studentId st hok r' h
      rw [List.foldl_cons] at h
      exact ih studentId _ (uAllocCourse_capacity courses skip studentId st c hok) r' h
  unfold uAllocateStudents
  suffices h : ∀ (sids : List String)
      (st : Option (List USection × List (String × List (String × String)))),
      (∀ r, st = some r → ∀ s ∈ r.1, (s.enrolledStudents.length : ℤ) ≤ s.maxStudents) →
      ∀ r, sids.foldl (fun st sid =>
          match st with
          | none => none
          | some (secs, allocs) =>
            match (uUniqueCourseIds sections).foldl (uAllocCourse courses skip sid)
                (some (secs, [])) with
            | none => none
            | some (secs', alloc) => some (secs', allocs ++ [(sid, alloc)])) st = some r →
        ∀ s ∈ r.1, (s.enrolledStudents.length : ℤ) ≤ s.maxStudents by
    intro r hr
    exact h studentIds (some (sections, []))
      (by intro r' hr'; injection hr' with h'; subst h'; exact hcap) r hr
  intro sids
  induction sids with
  | nil => intro st hok r h; exact hok r h
  | cons sid rest ih =>
    intro st hok r h
    rw [List.foldl_cons] at h
    refine ih _ ?_ r h
    intro r' hr'
    cases st with
    | none => simp at hr'
    | some p =>
      obtain ⟨secs, allocs⟩ := p
      simp only at hr'
      cases hfold : (uUniqueCourseIds sections).foldl (uAllocCourse courses skip sid)
          (some (secs, [])) with
      | none => rw [hfold] at hr'; simp at hr'
      | some q =>
        rw [hfold] at hr'
        injection hr' with h'
        subst h'
        have := hinner (uUniqueCourseIds sections) sid (some (secs, []))
          (by intro r'' hr''; injection hr'' with h''; subst h''; exact hok _ rfl) q hfold
        exact this

/-- In a pairwise list, any two distinct members are related one way or the
other. -/
theorem pairwise_mem_or {α : Type} {R : α → α → Prop} :
    ∀ {l : List α}, l.Pairwise R → ∀ {a b : α}, a ∈ l → b ∈ l → a ≠ b → R a b ∨ R b a := by
  intro l hl
  induction hl with
  | nil => intro a b ha; simp at ha
  | cons hhead _ ih =>
    intro a b ha hb hab
    rcases List.mem_cons.mp ha with rfl | ha' <;> rcases List.mem_cons.mp hb with rfl | hb'
    · exact absurd rfl hab
    · exact Or.inl (hhead b hb')
    · exact Or.inr (hhead a ha')
    · exact ih ha' hb' hab

/-- Two core courses for the unified allocator counterexample. -/
def uCourseA : UCourse :=
  { courseId := "A", courseName := "A", courseType := .core, credits := 3, theoryHours := 3,
    labHours := 0, maxTheoryCapacity := 10, maxLabCapacity := 10, estimatedStudents := 10,
    isCompulsory := true }

/-- Second core course for the unified allocator counterexample. -/
def uCourseB : UCourse :=
  { courseId := "B", courseName := "B", courseType := .core, credits := 3, theoryHours := 3,
    labHours := 0, maxTheoryCapacity := 10, maxLabCapacity := 10, estimatedStudents := 10,
    isCompulsory := true }

/-- Section of course A holding slot A1. -/
def uSecA : USection :=
  { sectionId := "A_T1", courseId := "A", sectionType := .theory, maxStudents := 10,
    assignedFaculty := "", assignedRoom := "", assignedSlots := ["A1"],
    enrolledStudents := [] }

/-- Section of course B holding the same slot A1. -/
def uSecB : USection :=
  { sectionId := "B_T1", courseId := "B", sectionType := .theory, maxStudents := 10,
    assignedFaculty := "", assignedRoom := "", assignedSlots := ["A1"],
    enrolledStudents := [] }

/-- C3, counterexample: `_allocate_students` never inspects
`assigned_slots`, so a student is placed into two sections (of different
courses) that share slot A1 — their slot sets are not disjoint. -/
theorem uAllocateStudents_overlap :
    uAllocateStudents [uCourseA, uCourseB] ["S1"] [uSecA, uSecB] (fun _ _ => false) =
      some ([{ uSecA with enrolledStudents := ["S1"] },
             { uSecB with enrolledStudents := ["S1"] }],
            [("S1", [("A", "A_T1"), ("B", "B_T1")])]) ∧
    uSecA.assignedSlots = ["A1"] ∧ uSecB.assignedSlots = ["A1"] ∧
    ∃ x ∈ uSecA.assignedSlots, x ∈ uSecB.assignedSlots := by
  refine ⟨by decide, rfl, rfl, by decide⟩

/-- C3, amended: the comprehensive allocator
(`allocate_students_to_sections`) guarantees both invariants — for every
student the slot sets of the sections allocated to that student are
pairwise disjoint (given distinct section ids), and no section exceeds its
capacity (given sections start within capacity) — while the unified
generator's `_allocate_students` guarantees only the capacity bound, not
slot disjointness. -/
theorem studentAllocation_amended :
    (∀ (sections : List SectionDefinition) (studentIds : List String),
      (∀ s ∈ sections, s.enrolledStudents.length ≤ s.maxCapacity) →
      ∀ s ∈ (allocateStudentsToSections sections studentIds).1,
        s.enrolledStudents.length ≤ s.maxCapacity) ∧
    (∀ (sections : List SectionDefinition) (studentIds : List String),
      (sections.map SectionDefinition.sectionId).Nodup →
      ∀ a ∈ (allocateStudentsToSections sections studentIds).2,
      ∀ p ∈ a.allocatedSections, ∀ q ∈ a.allocatedSections, p ≠ q →
      ∀ s ∈ (allocateStudentsToSections sections studentIds).1,
      ∀ t ∈ (allocateStudentsToSections sections studentIds).1,
        s.sectionId = p.2 → t.sectionId = q.2 →
        ∀ x ∈ s.assignedSlots, x ∉ t.assignedSlots) ∧
    (∀ (courses : List UCourse) (studentIds : List String) (sections : List USection)
      (skip : String → String → Bool)
      (r : List USection × List (String × List (String × String))),
      (∀ s ∈ sections, (s.enrolledStudents.length : ℤ) ≤ s.maxStudents) →
      uAllocateStudents courses studentIds sections skip = some r →
      ∀ s ∈ r.1, (s.enrolledStudents.length : ℤ) ≤ s.maxStudents) := by
  refine ⟨allocateStudentsToSections_capacity, ?_,
    fun courses studentIds sections skip r hcap hr =>
      uAllocateStudents_capacity courses studentIds sections skip hcap r hr⟩
  intro sections studentIds hnd a ha p hp q hq hpq s hs t ht hsp htq x hx
  have hnd' : ((sections.map secKey).map Prod.fst).Nodup := by
    rw [List.map_map]
    simpa [secKey, Function.comp_def] using hnd
  obtain ⟨hskel, hgood⟩ := allocateStudentsToSections_invariant sections studentIds hnd'
  have hga := hgood a ha
  have hes : secKey s ∈ sections.map secKey := hskel ▸ List.mem_map_of_mem secKey hs
  have het : secKey t ∈ sections.map secKey := hskel ▸ List.mem_map_of_mem secKey ht
  rcases pairwise_mem_or hga.2 hp hq hpq with hR | hR
  · exact hR (secKey s) hes (secKey t) het hsp htq x hx
  · intro hxt
    exact hR (secKey t) het (secKey s) hes htq hsp x hxt hx

/-- Two comprehensive sections on distinct slots for the witness. -/
def secX : SectionDefinition :=
  { sectionId := "X_T1", courseId := "X", courseName := "X", courseType := .core,
    sessionType := .theory, maxCapacity := 1, enrolledStudents := [],
    assignedSlots := ["A1"], isContinuous := false }

/-- Second comprehensive section on a distinct slot for the witness. -/
def secY : SectionDefinition :=
  { sectionId := "Y_T1", courseId := "Y", courseName := "Y", courseType := .core,
    sessionType := .theory, maxCapacity := 1, enrolledStudents := [],
    assignedSlots := ["B1"], isContinuous := false }

/-- Witness for `studentAllocation_amended` at concrete inputs. -/
theorem studentAllocation_amended_witness :
    (∀ s ∈ (allocateStudentsToSections [secX, secY] ["S1"]).1,
      s.enrolledStudents.length ≤ s.maxCapacity) ∧
    (∀ a ∈ (allocateStudentsToSections [secX, secY] ["S1"]).2,
      ∀ p ∈ a.allocatedSections, ∀ q ∈ a.allocatedSections, p ≠ q →
      ∀ s ∈ (allocateStudentsToSections [secX, secY] ["S1"]).1,
      ∀ t ∈ (allocateStudentsToSections [secX, secY] ["S1"]).1,
        s.sectionId = p.2 → t.sectionId = q.2 →
        ∀ x ∈ s.assignedSlots, x ∉ t.assignedSlots) ∧
    (∀ s ∈ ([{ uSecA with enrolledStudents := ["S1"] },
              { uSecB with enrolledStudents := ["S1"] }] : List USection),
      (s.enrolledStudents.length : ℤ) ≤ s.maxStudents) :=
  ⟨studentAllocation_amended.1 [secX, secY] ["S1"] (by decide),
   studentAllocation_amended.2.1 [secX, secY] ["S1"] (by decide),
   studentAllocation_amended.2.2 [uCourseA, uCourseB] ["S1"] [uSecA, uSecB]
     (fun _ _ => false)
     ([{ uSecA with enrolledStudents := ["S1"] },
       { uSecB with enrolledStudents := ["S1"] }],
      [("S1", [("A", "A_T1"), ("B", "B_T1")])])
     (by decide) (by decide)⟩

/-! ## Elective optimizer (`elective_optimizer.py`) -/

/-- Model of `timetable_config.ElectiveSection`. -/
structure ElectiveSection where
  sectionId : String
  electiveId : String
  electiveName : String
  facultyId : Option String
  maxStudents : ℕ
  enrolledStudents : List String
  slotPattern : List String
  roomId : Option String
deriving DecidableEq

/-- Model of `timetable_config.StudentElectivePreference`. -/
structure StudentElectivePreference where
  studentId : String
  preferences : List String
  assignedSections : List String
deriving DecidableEq

/-- Model of `elective_optimizer.AssignmentConstraint`. -/
structure AssignmentConstraint where
  studentId : String
  sectionId : String
  isFeasible : Bool
  preferenceRank : ℕ
  conflictReason : Option String
deriving DecidableEq

/-- Python `enumerate(xs, start)`. -/
def enumFrom {α : Type} : ℕ → List α → List (ℕ × α)
  | _, [] => []
  | i, x :: xs => (i, x) :: enumFrom (i + 1) xs

/-- Python dict update `d[k] = v`: replace in place if the key exists,
append otherwise (insertion order preserved). -/
def dictInsert {α : Type} (l : List (String × α)) (k : String) (v : α) :
    List (String × α) :=
  if (l.find? (fun p => p.1 = k)).isSome then
    l.map (fun p => if p.1 = k then (k, v) else p)
  else l ++ [(k, v)]

/-- Python dict read `d.get(k)`. -/
def dictGet {α : Type} (l : List (String × α)) (k : String) : Option α :=
  (l.find? (fun p => p.1 = k)).map (fun p => p.2)

/-- Model of
`ElectiveAssignmentOptimizer._build_constraints`: one constraint per
(preference rank, section of the ranked elective), feasible when the
section's slots avoid the student's core slots. -/
def buildConstraints (sections : List ElectiveSection)
    (preferences : List StudentElectivePreference)
    (coreSchedule : List (String × List String)) : List AssignmentConstraint :=
  preferences.flatMap fun pref =>
    let studentCoreSlots := (dictGet coreSchedule pref.studentId).getD []
    (enumFrom 1 pref.preferences).flatMap fun re =>
      (sections.filter (fun s => s.electiveId = re.2)).map fun sec =>
        let feasible := decide (∀ x ∈ studentCoreSlots, x ∉ sec.slotPattern)
        { studentId := pref.studentId
          sectionId := sec.sectionId
          isFeasible := feasible
          preferenceRank := re.1
          conflictReason := if feasible then none else some "Slot conflicts" }

/-- Model of `ElectiveAssignmentOptimizer._get_elective_id_from_section`. -/
def getElectiveIdFromSection (sectionId : String) (sections : List ElectiveSection) :
    String :=
  ((sections.find? (fun s => s.sectionId = sectionId)).map
    (fun s => s.electiveId)).getD ""

/-- Model of `ElectiveAssignmentOptimizer._get_preference_rank`. -/
def getPreferenceRank (studentId sectionId : String)
    (constraints : List AssignmentConstraint) : ℕ :=
  ((constraints.find? (fun c => c.studentId = studentId ∧ c.sectionId = sectionId)).map
    (fun c => c.preferenceRank)).getD 999

/-- Sort key comparison of `feasible_constraints.sort(key=(rank, student_id))`. -/
def constraintLE (a b : AssignmentConstraint) : Bool :=
  if a.preferenceRank < b.preferenceRank then true
  else if b.preferenceRank < a.preferenceRank then false
  else decide (a.studentId ≤ b.studentId)

/-- Stable insertion for the constraint sort. -/
def insertSortedConstraint (c : AssignmentConstraint) :
    List AssignmentConstraint → List AssignmentConstraint
  | [] => [c]
  | d :: rest =>
    if constraintLE c d then c :: d :: rest else d :: insertSortedConstraint c rest

/-- Stable sort of the feasible constraints, matching Python's stable
`list.sort`. -/
def sortConstraints : List AssignmentConstraint → List AssignmentConstraint
  | [] => []
  | c :: rest => insertSortedConstraint c (sortConstraints rest)

/-- State threaded through the greedy pass of
`_solve_assignment_problem`. -/
structure GreedyState where
  sectionEnrolled : List (String × ℕ)
  assignments : List (String × String)
  studentAssigned : List String
deriving DecidableEq

/-- The enrollment bookkeeping of a successful greedy assignment. -/
def greedyAssign (st : GreedyState) (c : AssignmentConstraint) : GreedyState :=
  { sectionEnrolled :=
      dictInsert st.sectionEnrolled c.sectionId
        (((dictGet st.sectionEnrolled c.sectionId).getD 0) + 1)
    assignments := dictInsert st.assignments c.studentId c.sectionId
    studentAssigned := st.studentAssigned ++ [c.studentId] }

/-- One constraint of the greedy pass of `_solve_assignment_problem`: skip
students already assigned, skip full sections, skip a second section of an
elective the student already holds, otherwise assign. -/
def greedyStep (sections : List ElectiveSection) (cap : List (String × ℕ))
    (st : GreedyState) (c : AssignmentConstraint) : GreedyState :=
  if c.studentId ∈ st.studentAssigned then st
  else if ((dictGet cap c.sectionId).getD 0) ≤ ((dictGet st.sectionEnrolled c.sectionId).getD 0)
  then st
  else
    match dictGet st.assignments c.studentId with
    | some assignedSection =>
      if getElectiveIdFromSection assignedSection sections =
          getElectiveIdFromSection c.sectionId sections then st
      else greedyAssign st c
    | none => greedyAssign st c

/-- One snapshot entry of one improvement pass of `_improve_assignments`:
move the student to the first feasible strictly better-ranked section with
free capacity. -/
def improveStep (constraints : List AssignmentConstraint) (cap : List (String × ℕ))
    (state : List (String × String) × Bool) (snap : String × String) :
    List (String × String) × Bool :=
  let currentRank := getPreferenceRank snap.1 snap.2 constraints
  match (constraints.filter (fun c => c.studentId = snap.1 ∧ c.isFeasible)).find?
      (fun c => c.preferenceRank < currentRank ∧
        (state.1.filter (fun p => p.2 = c.sectionId)).length <
          ((dictGet cap c.sectionId).getD 0)) with
  | some c => (dictInsert state.1 snap.1 c.sectionId, true)
  | none => state

/-- The `while improved and iterations < 100` loop of
`_improve_assignments`; the first argument is the number of passes left. -/
def improveLoop (constraints : List AssignmentConstraint) (cap : List (String × ℕ)) :
    ℕ → List (String × String) → List (String × String)
  | 0, assignments => assignments
  | n + 1, assignments =>
    let r := assignments.foldl (improveStep constraints cap) (assignments, false)
    if r.2 then improveLoop constraints cap n r.1 else r.1

/-- Model of `ElectiveAssignmentOptimizer._solve_assignment_problem`:
greedy pass over the feasibility-filtered, (rank, student)-sorted
constraints, then up to 100 local improvement passes. -/
def solveAssignmentProblem (constraints : List AssignmentConstraint)
    (sections : List ElectiveSection) : List (String × String) :=
  let cap := sections.foldl (fun d s => dictInsert d s.sectionId s.maxStudents) []
  let enrolled0 := sections.foldl (fun d s => dictInsert d s.sectionId 0) []
  let sorted := sortConstraints (constraints.filter (fun c => c.isFeasible))
  let final := sorted.foldl (greedyStep sections cap) ⟨enrolled0, [], []⟩
  improveLoop constraints cap 100 final.assignments

/-- Model of the assignment map computed by
`ElectiveAssignmentOptimizer.optimize_assignments`. -/
def optimizeAssignments (sections : List ElectiveSection)
    (preferences : List StudentElectivePreference)
    (coreSchedule : List (String × List String)) : List (String × String) :=
  solveAssignmentProblem (buildConstraints sections preferences coreSchedule) sections

/-- Dict update preserves distinctness of keys. -/
theorem dictInsert_fst_nodup {α : Type} {l : List (String × α)} {k : String} {v : α}
    (h : (l.map Prod.fst).Nodup) : ((dictInsert l k v).map Prod.fst).Nodup := by
  unfold dictInsert
  split
  · have heq : (l.map (fun p => if p.1 = k then (k, v) else p)).map Prod.fst =
        l.map Prod.fst := by
      rw [List.map_map]
      refine List.map_congr_left ?_
      intro p _
      by_cases hp : p.1 = k
      · simp [hp]
      · simp [hp]
    rw [heq]
    exact h
  · rename_i hfind
    have hnone : l.find? (fun p => p.1 = k) = none :=
      Option.not_isSome_iff_eq_none.mp hfind
    have hk : ∀ p ∈ l, ¬ p.1 = k := by
      intro p hp
      have := List.find?_eq_none.mp hnone p hp
      simpa using this
    rw [List.map_append]
    rw [List.nodup_append]
    refine ⟨h, by simp, ?_⟩
    intro a ha
    simp only [List.map_cons, List.map_nil, List.mem_singleton]
    intro hak
    subst hak
    obtain ⟨p, hp, hpa⟩ := List.mem_map.mp ha
    exact hk p hp hpa

/-- The greedy pass keeps the assignment dict's keys distinct. -/
theorem greedyStep_nodup (sections : List ElectiveSection) (cap : List (String × ℕ))
    (st : GreedyState) (c : AssignmentConstraint)
    (h : (st.assignments.map Prod.fst).Nodup) :
    ((greedyStep sections cap st c).assignments.map Prod.fst).Nodup := by
  unfold greedyStep greedyAssign
  split
  · exact h
  split
  · exact h
  split
  · split
    · exact h
    · exact dictInsert_fst_nodup h
  · exact dictInsert_fst_nodup h

/-- An improvement step keeps the assignment dict's keys distinct. -/
theorem improveStep_nodup (constraints : List AssignmentConstraint)
    (cap : List (String × ℕ)) (state : List (String × String) × Bool)
    (snap : String × String) (h : (state.1.map Prod.fst).Nodup) :
    (((improveStep constraints cap state snap).1).map Prod.fst).Nodup := by
  unfold improveStep
  dsimp only
  split
  · exact dictInsert_fst_nodup h
  · exact h

/-- Each improvement pass keeps the assignment dict's keys distinct. -/
theorem improvePass_nodup (constraints : List AssignmentConstraint)
    (cap : List (String × ℕ)) :
    ∀ (snap : List (String × String)) (state : List (String × String) × Bool),
      (state.1.map Prod.fst).Nodup →
      (((snap.foldl (improveStep constraints cap) state).1).map Prod.fst).Nodup := by
  intro snap
  induction snap with
  | nil => intro state h; exact h
  | cons p rest ih =>
    intro state h
    rw [List.foldl_cons]
    exact ih _ (improveStep_nodup constraints cap state p h)

/-- The improvement loop keeps the assignment dict's keys distinct. -/
theorem improveLoop_nodup (constraints : List AssignmentConstraint)
    (cap : List (String × ℕ)) :
    ∀ (n : ℕ) (assignments : List (String × String)),
      (assignments.map Prod.fst).Nodup →
      ((improveLoop constraints cap n assignments).map Prod.fst).Nodup := by
  intro n
  induction n with
  | zero => intro assignments h; exact h
  | succ n ih =>
    intro assignments h
    unfold improveLoop
    dsimp only
    split
    · exact ih _ (improvePass_nodup constraints cap assignments (assignments, false) h)
    · exact improvePass_nodup constraints cap assignments (assignments, false) h

/-- The whole greedy fold keeps the assignment dict's keys distinct. -/
theorem greedyFold_nodup (sections : List ElectiveSection) (cap : List (String × ℕ)) :
    ∀ (cs : List AssignmentConstraint) (st : GreedyState),
      (st.assignments.map Prod.fst).Nodup →
      (((cs.foldl (greedyStep sections cap) st).assignments).map Prod.fst).Nodup := by
  intro cs
  induction cs with
  | nil => intro st h; exact h
  | cons c rest ih =>
    intro st h
    rw [List.foldl_cons]
    exact ih _ (greedyStep_nodup sections cap st c h)

/-- C10: the elective optimizer assigns each student at most one section —
the returned assignment dict has pairwise-distinct student keys — and once
a student is assigned during the greedy pass, every later constraint for
that student is skipped leaving the state untouched. -/
theorem electiveSingleAssignment :
    (∀ (sections : List ElectiveSection) (preferences : List StudentElectivePreference)
      (coreSchedule : List (String × List String)),
      ((optimizeAssignments sections preferences coreSchedule).map Prod.fst).Nodup) ∧
    (∀ (sections : List ElectiveSection) (cap : List (String × ℕ)) (st : GreedyState)
      (c : AssignmentConstraint), c.studentId ∈ st.studentAssigned →
      greedyStep sections cap st c = st) := by
  constructor
  · intro sections preferences coreSchedule
    unfold optimizeAssignments solveAssignmentProblem
    apply improveLoop_nodup
    apply greedyFold_nodup
    simp
  · intro sections cap st c h
    unfold greedyStep
    rw [if_pos h]

/-- Witness for `electiveSingleAssignment` at concrete inputs. -/
theorem electiveSingleAssignment_witness :
    ((optimizeAssignments [] [] []).map Prod.fst).Nodup ∧
    greedyStep [] [] ⟨[], [("S1", "E1_SEC1")], ["S1"]⟩
      ⟨"S1", "E1_SEC2", true, 2, none⟩ = ⟨[], [("S1", "E1_SEC1")], ["S1"]⟩ :=
  ⟨electiveSingleAssignment.1 [] [] [],
   electiveSingleAssignment.2 [] [] ⟨[], [("S1", "E1_SEC1")], ["S1"]⟩
     ⟨"S1", "E1_SEC2", true, 2, none⟩ (by decide)⟩

/-! ## Genetic solver best-tracking (`genetic_solver.py`)

The evolution loop of `GeneticTimetableSolver.solve_timetable` is modelled
over an abstract individual type and an abstract sequence of evaluated
populations (the populations produced by the random selection, crossover
and mutation operators), which captures every possible run of the
randomized search. Only the deterministic best-tracking logic is spelled
out: argmax over the generation's fitness scores, the strict-improvement
update of `best_fitness`/`best_individual`, and the 50-generation
early-termination counter. -/

/-- The best-tracking state of the evolution loop; `bestFitness = none`
models the initial `-inf`. -/
structure GAState (α : Type) where
  bestFitness : Option ℚ
  bestIndividual : Option α
  genWithoutImprovement : ℕ
deriving DecidableEq

/-- Model of `np.argmax(fitness_scores)` followed by the score lookup: the
first individual attaining the maximum fitness, with its fitness; `none`
on an empty population (where NumPy raises). -/
def bestOf {α : Type} (fit : α → ℚ) (pop : List α) : Option (α × ℚ) :=
  pop.foldl
    (fun acc x =>
      match acc with
      | none => some (x, fit x)
      | some (b, fb) => if fit x > fb then some (x, fit x) else some (b, fb))
    none

/-- The per-generation best-tracking update of `solve_timetable`:
`if fitness_scores[max_fitness_idx] > best_fitness` replace the best and
reset the counter, else bump the counter. -/
def trackUpdate {α : Type} (st : GAState α) (ind : α) (f : ℚ) : GAState α :=
  match st.bestFitness with
  | none => ⟨some f, some ind, 0⟩
  | some bf =>
    if f > bf then ⟨some f, some ind, 0⟩
    else ⟨st.bestFitness, st.bestIndividual, st.genWithoutImprovement + 1⟩

/-- Model of the evolution loop of `solve_timetable`: per generation,
track the best individual (strict improvement only), reset or bump the
no-improvement counter, and stop early after more than 50 generations
without improvement. `none` models the exception NumPy raises on an empty
population. -/
def runGA {α : Type} (fit : α → ℚ) : GAState α → List (List α) → Option (GAState α)
  | st, [] => some st
  | st, pop :: rest =>
    match bestOf fit pop with
    | none => none
    | some (ind, f) =>
      let st' := trackUpdate st ind f
      if st'.genWithoutImprovement > 50 then some st'
      else runGA fit st' rest

/-- Ordering on tracked fitness values, with `none` as `-inf`. -/
def fitLE : Option ℚ → Option ℚ → Prop
  | none, _ => True
  | some _, none => False
  | some a, some b => a ≤ b

/-- Transitivity of the tracked-fitness order. -/
theorem fitLE_trans : ∀ {a b c : Option ℚ}, fitLE a b → fitLE b c → fitLE a c := by
  intro a b c hab hbc
  cases a with
  | none => trivial
  | some x =>
    cases b with
    | none => exact absurd hab (by simp [fitLE])
    | some y =>
      cases c with
      | none => exact absurd hbc (by simp [fitLE])
      | some z => exact le_trans (show x ≤ y from hab) (show y ≤ z from hbc)

/-- The argmax result dominates the whole population and is attained by a
member of it. -/
theorem bestOf_spec {α : Type} (fit : α → ℚ) :
    ∀ (pop : List α) (b : α) (f : ℚ), bestOf fit pop = some (b, f) →
      f = fit b ∧ b ∈ pop ∧ ∀ x ∈ pop, fit x ≤ f := by
  have main : ∀ (pop : List α) (acc b : α),
      (∀ r, some ((acc, fit acc) : α × ℚ) = some r → r.2 = fit r.1) →
      True →
      ∀ f, pop.foldl
          (fun acc x =>
            match acc with
            | none => some (x, fit x)
            | some (b, fb) => if fit x > fb then some (x, fit x) else some (b, fb))
          (some (acc, fit acc)) = some (b, f) →
        f = fit b ∧ (b = acc ∨ b ∈ pop) ∧ fit acc ≤ f ∧ ∀ x ∈ pop, fit x ≤ f := by
    intro pop
    induction pop with
    | nil =>
      intro acc b _ _ f h
      simp only [List.foldl_nil, Option.some.injEq, Prod.mk.injEq] at h
      obtain ⟨rfl, rfl⟩ := h
      exact ⟨rfl, Or.inl rfl, le_refl _, by simp⟩
    | cons x rest ih =>
      intro acc b _ _ f h
      rw [List.foldl_cons] at h
      by_cases hx : fit x > fit acc
      · rw [show (match some ((acc, fit acc) : α × ℚ) with
            | none => some (x, fit x)
            | some (b, fb) => if fit x > fb then some (x, fit x) else some (b, fb)) =
            some (x, fit x) by simp [hx]] at h
        obtain ⟨h1, h2, h3, h4⟩ := ih x b (by intro r hr; injection hr with hr'; rw [← hr'])
          trivial f h
        refine ⟨h1, ?_, le_trans (le_of_lt hx) h3, ?_⟩
        · rcases h2 with rfl | h2
          · exact Or.inr (List.mem_cons_self _ _)
          · exact Or.inr (List.mem_cons_of_mem _ h2)
        · intro y hy
          rcases List.mem_cons.mp hy with rfl | hy'
          · exact h3
          · exact h4 y hy'
      · rw [show (match some ((acc, fit acc) : α × ℚ) with
            | none => some (x, fit x)
            | some (b, fb) => if fit x > fb then some (x, fit x) else some (b, fb)) =
            some (acc, fit acc) by simp [hx]] at h
        obtain ⟨h1, h2, h3, h4⟩ := ih acc b (by intro r hr; injection hr with hr'; rw [← hr'])
          trivial f h
        refine ⟨h1, ?_, h3, ?_⟩
        · rcases h2 with rfl | h2
          · exact Or.inl rfl
          · exact Or.inr (List.mem_cons_of_mem _ h2)
        · intro y hy
          rcases List.mem_cons.mp hy with rfl | hy'
          · exact le_trans (le_of_not_lt hx) h3
          · exact h4 y hy'
  intro pop b f h
  cases pop with
  | nil => simp [bestOf] at h
  | cons x rest =>
    unfold bestOf at h
    rw [List.foldl_cons] at h
    rw [show (match (none : Option (α × ℚ)) with
        | none => some (x, fit x)
        | some (b, fb) => if fit x > fb then some (x, fit x) else some (b, fb)) =
        some (x, fit x) from rfl] at h
    obtain ⟨h1, h2, h3, h4⟩ := main rest x b (by intro r hr; injection hr with hr'; rw [← hr'])
      trivial f h
    refine ⟨h1, ?_, ?_⟩
    · rcases h2 with rfl | h2
      · exact List.mem_cons_self _ _
      · exact List.mem_cons_of_mem _ h2
    · intro y hy
      rcases List.mem_cons.mp hy with rfl | hy'
      · exact h3
      · exact h4 y hy'

/-- Reflexivity of the tracked-fitness order. -/
theorem fitLE_refl : ∀ (a : Option ℚ), fitLE a a := by
  intro a
  cases a with
  | none => trivial
  | some x => exact le_refl x

/-- The tracking update either installs the new best (which dominates the
old) or keeps the old best and bumps the counter (when the candidate does
not beat it). -/
theorem trackUpdate_cases {α : Type} (st : GAState α) (ind : α) (f : ℚ) :
    (trackUpdate st ind f = ⟨some f, some ind, 0⟩ ∧ fitLE st.bestFitness (some f)) ∨
    (trackUpdate st ind f =
        ⟨st.bestFitness, st.bestIndividual, st.genWithoutImprovement + 1⟩ ∧
      ∃ bf, st.bestFitness = some bf ∧ f ≤ bf) := by
  unfold trackUpdate
  cases hbf : st.bestFitness with
  | none => exact Or.inl ⟨rfl, trivial⟩
  | some bf =>
    dsimp only
    by_cases hgt : f > bf
    · rw [if_pos hgt]
      exact Or.inl ⟨rfl, le_of_lt hgt⟩
    · rw [if_neg hgt]
      exact Or.inr ⟨rfl, bf, rfl, le_of_not_lt hgt⟩

/-- The tracked best fitness never decreases across the run. -/
theorem runGA_mono {α : Type} (fit : α → ℚ) :
    ∀ (pops : List (List α)) (st st' : GAState α),
      runGA fit st pops = some st' → fitLE st.bestFitness st'.bestFitness := by
  intro pops
  induction pops with
  | nil =>
    intro st st' h
    injection h with h'
    subst h'
    exact fitLE_refl _
  | cons pop rest ih =>
    intro st st' h
    unfold runGA at h
    cases hbest : bestOf fit pop with
    | none => rw [hbest] at h; exact absurd h (by simp)
    | some p =>
      obtain ⟨ind, f⟩ := p
      rw [hbest] at h
      dsimp only at h
      rcases trackUpdate_cases st ind f with ⟨hupd, hle⟩ | ⟨hupd, bf, hbf, hle⟩
      · rw [hupd] at h
        rw [if_neg (by norm_num)] at h
        exact fitLE_trans hle (ih _ _ h)
      · rw [hupd] at h
        split at h
        · injection h with h'
          subst h'
          exact fitLE_refl _
        · exact ih ⟨st.bestFitness, st.bestIndividual, st.genWithoutImprovement + 1⟩ st' h

/-- The returned best individual is either carried over unchanged from the
initial state or attained by some individual of some evaluated
generation, with the recorded fitness being its fitness. -/
theorem runGA_attain {α : Type} (fit : α → ℚ) :
    ∀ (pops : List (List α)) (st st' : GAState α),
      runGA fit st pops = some st' →
      (st'.bestIndividual = st.bestIndividual ∧ st'.bestFitness = st.bestFitness) ∨
      ∃ pop ∈ pops, ∃ b ∈ pop, st'.bestIndividual = some b ∧
        st'.bestFitness = some (fit b) := by
  intro pops
  induction pops with
  | nil =>
    intro st st' h
    injection h with h'
    subst h'
    exact Or.inl ⟨rfl, rfl⟩
  | cons pop rest ih =>
    intro st st' h
    unfold runGA at h
    cases hbest : bestOf fit pop with
    | none => rw [hbest] at h; exact absurd h (by simp)
    | some p =>
      obtain ⟨ind, f⟩ := p
      rw [hbest] at h
      dsimp only at h
      obtain ⟨hf, hmem, _⟩ := bestOf_spec fit pop ind f hbest
      rcases trackUpdate_cases st ind f with ⟨hupd, _⟩ | ⟨hupd, bf, hbf, hle⟩
      · rw [hupd] at h
        rw [if_neg (by norm_num)] at h
        rcases ih _ _ h with ⟨hbi, hbf'⟩ | ⟨pop', hpop', b, hb, hbi, hbf'⟩
        · refine Or.inr ⟨pop, List.mem_cons_self _ _, ind, hmem, ?_, ?_⟩
          · rw [hbi]
          · rw [hbf', ← hf]
        · exact Or.inr ⟨pop', List.mem_cons_of_mem _ hpop', b, hb, hbi, hbf'⟩
      · rw [hupd] at h
        split at h
        · injection h with h'
          subst h'
          exact Or.inl ⟨rfl, rfl⟩
        · rcases ih _ _ h with ⟨hbi, hbf'⟩ | ⟨pop', hpop', b, hb, hbi, hbf'⟩
          · exact Or.inl ⟨hbi, hbf'⟩
          · exact Or.inr ⟨pop', List.mem_cons_of_mem _ hpop', b, hb, hbi, hbf'⟩

/-- The run actually processes a prefix of the generation list (early
termination), and the returned best fitness dominates the fitness of every
individual in every processed generation. -/
theorem runGA_prefix {α : Type} (fit : α → ℚ) :
    ∀ (pops : List (List α)) (st st' : GAState α),
      runGA fit st pops = some st' →
      ∃ n, n ≤ pops.length ∧ runGA fit st (pops.take n) = some st' ∧
        ∀ x : α, (∃ pop ∈ pops.take n, x ∈ pop) →
          fitLE (some (fit x)) st'.bestFitness := by
  intro pops
  induction pops with
  | nil =>
    intro st st' h
    exact ⟨0, le_refl _, h, by rintro x ⟨pop, hpop, _⟩; simp at hpop⟩
  | cons pop rest ih =>
    intro st st' h
    unfold runGA at h
    cases hbest : bestOf fit pop with
    | none => rw [hbest] at h; exact absurd h (by simp)
    | some p =>
      obtain ⟨ind, f⟩ := p
      rw [hbest] at h
      dsimp only at h
      obtain ⟨hf, hmem, hdom⟩ := bestOf_spec fit pop ind f hbest
      have hstep : ∀ x ∈ pop, fitLE (some (fit x)) (trackUpdate st ind f).bestFitness := by
        intro x hx
        rcases trackUpdate_cases st ind f with ⟨hupd, _⟩ | ⟨hupd, bf, hbf, hle⟩
        · rw [hupd]
          exact hdom x hx
        · rw [hupd]
          show fitLE (some (fit x)) st.bestFitness
          rw [hbf]
          exact le_trans (hdom x hx) hle
      by_cases hbrk : (trackUpdate st ind f).genWithoutImprovement > 50
      · rw [if_pos hbrk] at h
        injection h with h'
        subst h'
        refine ⟨1, by simp, ?_, ?_⟩
        · show runGA fit st [pop] = some (trackUpdate st ind f)
          unfold runGA
          rw [hbest]
          dsimp only
          rw [if_pos hbrk]
        · rintro x ⟨pop', hpop', hx⟩
          simp only [List.take_succ_cons, List.take_zero, List.mem_singleton] at hpop'
          subst hpop'
          exact hstep x hx
      · rw [if_neg hbrk] at h
        obtain ⟨n, hn, hrun, hdomrest⟩ := ih _ _ h
        refine ⟨n + 1, by simpa using hn, ?_, ?_⟩
        · show runGA fit st (pop :: rest.take n) = some st'
          unfold runGA
          rw [hbest]
          dsimp only
          rw [if_neg hbrk]
          exact hrun
        · rintro x ⟨pop', hpop', hx⟩
          simp only [List.take_succ_cons, List.mem_cons] at hpop'
          rcases hpop' with rfl | hpop''
          · exact fitLE_trans (hstep x hx) (runGA_mono fit _ _ _ hrun)
          · exact hdomrest x ⟨pop', hpop'', hx⟩

/-- C8: across the evolution loop the tracked best fitness is monotonically
non-decreasing (the strict-improvement update never regresses), and the
state whose individual is converted into the returned schedule carries the
best individual seen over all processed generations: it is attained in
some evaluated population (unless no generation improved on the initial
state) and its fitness dominates every individual of every processed
generation, not merely the final population. -/
theorem gaBestTracking :
    (∀ (α : Type) (fit : α → ℚ) (pops : List (List α)) (st st' : GAState α),
      runGA fit st pops = some st' → fitLE st.bestFitness st'.bestFitness) ∧
    (∀ (α : Type) (fit : α → ℚ) (pops : List (List α)) (st st' : GAState α),
      runGA fit st pops = some st' →
      (st'.bestIndividual = st.bestIndividual ∧ st'.bestFitness = st.bestFitness) ∨
      ∃ pop ∈ pops, ∃ b ∈ pop, st'.bestIndividual = some b ∧
        st'.bestFitness = some (fit b)) ∧
    (∀ (α : Type) (fit : α → ℚ) (pops : List (List α)) (st st' : GAState α),
      runGA fit st pops = some st' →
      ∃ n, n ≤ pops.length ∧ runGA fit st (pops.take n) = some st' ∧
        ∀ x : α, (∃ pop ∈ pops.take n, x ∈ pop) →
          fitLE (some (fit x)) st'.bestFitness) :=
  ⟨fun _ fit pops st st' h => runGA_mono fit pops st st' h,
   fun _ fit pops st st' h => runGA_attain fit pops st st' h,
   fun _ fit pops st st' h => runGA_prefix fit pops st st' h⟩

/-- Witness for `gaBestTracking` on a concrete two-generation run. -/
theorem gaBestTracking_witness :
    fitLE (GAState.mk (α := Bool) none none 0).bestFitness
      (GAState.mk (α := Bool) (some 0) (some true) 1).bestFitness ∧
    (((GAState.mk (α := Bool) (some 0) (some true) 1).bestIndividual =
        (GAState.mk (α := Bool) none none 0).bestIndividual ∧
      (GAState.mk (α := Bool) (some 0) (some true) 1).bestFitness =
        (GAState.mk (α := Bool) none none 0).bestFitness) ∨
      ∃ pop ∈ [[true], [false]], ∃ b ∈ pop,
        (GAState.mk (α := Bool) (some 0) (some true) 1).bestIndividual = some b ∧
        (GAState.mk (α := Bool) (some 0) (some true) 1).bestFitness =
          some ((fun _ => (0 : ℚ)) b)) ∧
    ∃ n, n ≤ ([[true], [false]] : List (List Bool)).length ∧
      runGA (fun _ => (0 : ℚ)) (GAState.mk none none 0) ([[true], [false]].take n) =
        some (GAState.mk (some 0) (some true) 1) ∧
      ∀ x : Bool, (∃ pop ∈ [[true], [false]].take n, x ∈ pop) →
        fitLE (some ((fun _ => (0 : ℚ)) x))
          (GAState.mk (α := Bool) (some 0) (some true) 1).bestFitness :=
  ⟨gaBestTracking.1 Bool (fun _ => 0) [[true], [false]] ⟨none, none, 0⟩
      ⟨some 0, some true, 1⟩ (by decide),
   gaBestTracking.2.1 Bool (fun _ => 0) [[true], [false]] ⟨none, none, 0⟩
      ⟨some 0, some true, 1⟩ (by decide),
   gaBestTracking.2.2 Bool (fun _ => 0) [[true], [false]] ⟨none, none, 0⟩
      ⟨some 0, some true, 1⟩ (by decide)⟩

/-! ## Constraint solver extraction and conflict detection
(`constraint_solver.py`)

`solve_timetable` builds one CP-SAT boolean per (course, faculty, room,
time-slot index) — the course/faculty/room id lists below are the keys of
the dictionaries `{c.id: c for c in ...}`, hence duplicate-free — and on a
feasible status extracts one `TimetableSlot` per true variable in nested
loop order. The solver's returned assignment is modelled as an arbitrary
boolean valuation `x` constrained by the model's hard constraints. -/

/-- Model of `models.TimeSlot` (request time slots). -/
structure MTimeSlot where
  day : String
  startTime : String
  endTime : String
  duration : ℕ
deriving DecidableEq

/-- Model of `models.TimetableSlot` (one extracted assignment). -/
structure TimetableSlotM where
  courseId : String
  facultyId : String
  roomId : String
  day : String
  startTime : String
  endTime : String
  duration : ℕ
  studentIds : List String
deriving DecidableEq

/-- The (day, start_time) pair of a request time slot. -/
def tsKey (t : MTimeSlot) : String × String := (t.day, t.startTime)

/-- The slot built by `_extract_solution` for one true variable. -/
def mkSlot (ts : List MTimeSlot) (c f r : String) (i : ℕ) : TimetableSlotM :=
  let t := ts.getD i ⟨"", "", "", 0⟩
  { courseId := c, facultyId := f, roomId := r, day := t.day, startTime := t.startTime,
    endTime := t.endTime, duration := t.duration, studentIds := [] }

/-- Model of `TimetableConstraintSolver._extract_solution`: one entry per
true decision variable, in course/faculty/room/slot-index loop order. -/
def extractSolution (courseIds facultyIds roomIds : List String)
    (ts : List MTimeSlot) (x : String → String → String → ℕ → Bool) :
    List TimetableSlotM :=
  courseIds.flatMap fun c =>
    facultyIds.flatMap fun f =>
      roomIds.flatMap fun r =>
        (List.range ts.length).filterMap fun i =>
          if x c f r i then some (mkSlot ts c f r i) else none

/-- The grouping key of the faculty-clash pass of `_detect_conflicts`. -/
def facKey (s : TimetableSlotM) : String × String × String :=
  (s.facultyId, s.day, s.startTime)

/-- The grouping key of the room-clash pass of `_detect_conflicts`. -/
def roomKey (s : TimetableSlotM) : String × String × String :=
  (s.roomId, s.day, s.startTime)

/-- A conflict record of `_detect_conflicts`. -/
structure MConflict where
  ctype : String
  description : String
  severity : String
deriving DecidableEq

/-- One pass of `_detect_conflicts`: walk the slots keeping the set of
keys seen so far; every slot whose key was already seen produces one
high-severity conflict record. -/
def clashPass (key : TimetableSlotM → String × String × String)
    (desc : TimetableSlotM → String) (ctype : String) :
    List TimetableSlotM → List (String × String × String) → List MConflict
  | [], _ => []
  | s :: rest, seen =>
    if key s ∈ seen then
      { ctype := ctype, description := desc s, severity := "high" } ::
        clashPass key desc ctype rest seen
    else clashPass key desc ctype rest (seen ++ [key s])

/-- Model of `TimetableConstraintSolver._detect_conflicts`: the faculty
pass followed by the room pass. -/
def detectConflicts (slots : List TimetableSlotM) : List MConflict :=
  clashPass facKey
    (fun s => "Faculty " ++ s.facultyId ++ " has overlapping assignments")
    "faculty_clash" slots [] ++
  clashPass roomKey
    (fun s => "Room " ++ s.roomId ++ " has overlapping bookings")
    "room_clash" slots []

/-- The (course, faculty) pairs whose variables are summed in room
constraint 2 of `_add_basic_constraints`. -/
def cfPairs (courseIds facultyIds : List String) : List (String × String) :=
  courseIds.flatMap fun c => facultyIds.map fun f => (c, f)

/-- The (course, room) pairs whose variables are summed in faculty
constraint 3 of `_add_basic_constraints`. -/
def crPairs (courseIds roomIds : List String) : List (String × String) :=
  courseIds.flatMap fun c => roomIds.map fun r => (c, r)

/-- Constraint 2 of `_add_basic_constraints`: at most one (course,
faculty) per (room, slot index). -/
def roomNoDouble (courseIds facultyIds roomIds : List String) (ts : List MTimeSlot)
    (x : String → String → String → ℕ → Bool) : Prop :=
  ∀ r ∈ roomIds, ∀ i ∈ List.range ts.length,
    (cfPairs courseIds facultyIds).countP (fun p => x p.1 p.2 r i) ≤ 1

/-- Constraint 3 of `_add_basic_constraints`: at most one (course, room)
per (faculty, slot index). -/
def facNoDouble (courseIds facultyIds roomIds : List String) (ts : List MTimeSlot)
    (x : String → String → String → ℕ → Bool) : Prop :=
  ∀ f ∈ facultyIds, ∀ i ∈ List.range ts.length,
    (crPairs courseIds roomIds).countP (fun p => x p.1 f p.2 i) ≤ 1

/-- Constraint 1 of `_add_basic_constraints`: each course is assigned
exactly `credits` variables. -/
def courseExactly (courseIds facultyIds roomIds : List String) (ts : List MTimeSlot)
    (credits : String → ℕ) (x : String → String → String → ℕ → Bool) : Prop :=
  ∀ c ∈ courseIds,
    (facultyIds.flatMap fun f => roomIds.flatMap fun r =>
      (List.range ts.length).map fun i => (f, r, i)).countP
        (fun t => x c t.1 t.2.1 t.2.2) = credits c

/-- The default slot used by `List.getD` in the extraction model (never
reached: extraction only reads indices below the slot count). -/
def dfltTS : MTimeSlot := ⟨"", "", "", 0⟩

/-- Whether slot index `i` carries the (day, start_time) pair (d, s₀). -/
def slotKeyMatch (ts : List MTimeSlot) (d s₀ : String) (i : ℕ) : Bool :=
  ((ts.getD i dfltTS).day == d) && ((ts.getD i dfltTS).startTime == s₀)

/-- Two request slots with identical (day, start_time): per-index solver
constraints are satisfiable yet the detector reports clashes. -/
def tsDup : List MTimeSlot :=
  [⟨"Mon", "09:00", "10:00", 60⟩, ⟨"Mon", "09:00", "10:00", 60⟩]

/-- Two request slots with distinct (day, start_time) pairs. -/
def tsTwo : List MTimeSlot :=
  [⟨"Mon", "09:00", "10:00", 60⟩, ⟨"Mon", "10:00", "11:00", 60⟩]

theorem countP_flatMap {A B : Type} (p : B → Bool) (f : A → List B) :
    ∀ l : List A, (l.flatMap f).countP p = (l.map fun a => (f a).countP p).sum := by
  intro l
  induction l with
  | nil => rfl
  | cons a l ih =>
    rw [List.flatMap_cons, List.countP_append, List.map_cons, List.sum_cons, ih]

theorem countP_filterMap_if {A B : Type} (q : A → Bool) (g : A → B) (p : B → Bool) :
    ∀ l : List A,
      (l.filterMap fun a => if q a then some (g a) else none).countP p =
        l.countP fun a => q a && p (g a) := by
  intro l
  induction l with
  | nil => rfl
  | cons a l ih =>
    by_cases hq : q a = true <;>
      simp [List.filterMap_cons, hq, List.countP_cons, ih]

theorem countP_eq_sum_if {A : Type} (q : A → Bool) :
    ∀ l : List A, l.countP q = (l.map fun a => if q a then 1 else 0).sum := by
  intro l
  induction l with
  | nil => rfl
  | cons a l ih => rw [List.countP_cons, List.map_cons, List.sum_cons, ih, Nat.add_comm]

theorem triple_sum_zero {A B C : Type} (la : List A) (lb : List B) (lc : List C)
    (g : A → B → C → ℕ)
    (h : ∀ a ∈ la, ∀ b ∈ lb, ∀ c ∈ lc, g a b c = 0) :
    (la.map fun a => (lb.map fun b => (lc.map fun c => g a b c).sum).sum).sum = 0 := by
  apply List.sum_eq_zero
  intro u hu
  rcases List.mem_map.mp hu with ⟨a, ha, rfl⟩
  apply List.sum_eq_zero
  intro v hv
  rcases List.mem_map.mp hv with ⟨b, hb, rfl⟩
  apply List.sum_eq_zero
  intro w hw
  rcases List.mem_map.mp hw with ⟨c, hc, rfl⟩
  exact h a ha b hb c hc

theorem sum_map_le_single {A : Type} (g : A → ℕ) (v : A) :
    ∀ l : List A, l.Nodup → (∀ a ∈ l, a ≠ v → g a = 0) → (l.map g).sum ≤ g v := by
  intro l
  induction l with
  | nil =>
    intro _ _
    exact Nat.zero_le _
  | cons a l ih =>
    intro hnd hz
    rw [List.map_cons, List.sum_cons]
    rcases List.nodup_cons.mp hnd with ⟨ha, hnd2⟩
    by_cases hav : a = v
    · subst hav
      have h0 : (l.map g).sum = 0 := by
        apply List.sum_eq_zero
        intro u hu
        rcases List.mem_map.mp hu with ⟨b, hb, rfl⟩
        exact hz b (List.mem_cons_of_mem a hb) (fun hbv => ha (hbv ▸ hb))
      omega
    · have h0 : g a = 0 := hz a (List.mem_cons_self a l) hav
      have h1 := ih hnd2 (fun b hb hbv => hz b (List.mem_cons_of_mem a hb) hbv)
      omega

theorem countP_range_le_ind (N i₁ : ℕ) (b keyq : ℕ → Bool)
    (huniq : ∀ i ∈ List.range N, keyq i = true → i = i₁) :
    ((List.range N).countP fun i => b i && keyq i) ≤ if b i₁ then 1 else 0 := by
  by_cases hb : b i₁ = true
  · rw [if_pos hb]
    calc ((List.range N).countP fun i => b i && keyq i)
        ≤ ((List.range N).countP fun i => i == i₁) := by
          apply List.countP_mono_left
          intro i hi hp
          rw [Bool.and_eq_true] at hp
          have hii := huniq i hi hp.2
          simp [hii]
      _ ≤ 1 := by
          rw [← List.count_eq_countP]
          exact (List.nodup_iff_count_le_one.mp (List.nodup_range N)) i₁
  · rw [if_neg hb]
    rw [Nat.le_zero, List.countP_eq_zero]
    intro i hi hcon
    rw [Bool.and_eq_true] at hcon
    exact hb (huniq i hi hcon.2 ▸ hcon.1)

theorem nodup_of_countP_le_one {A : Type} [BEq A] [LawfulBEq A] :
    ∀ l : List A, (∀ K : A, l.countP (fun a => a == K) ≤ 1) → l.Nodup := by
  intro l
  induction l with
  | nil =>
    intro _
    exact List.nodup_nil
  | cons a l ih =>
    intro h
    rw [List.nodup_cons]
    refine ⟨?_, ?_⟩
    · intro hmem
      have h1 : 0 < l.countP (fun x => x == a) :=
        List.countP_pos_iff.mpr ⟨a, hmem, by simp⟩
      have h2 := h a
      rw [List.countP_cons] at h2
      simp only [beq_self_eq_true, if_true] at h2
      omega
    · apply ih
      intro K
      have h2 := h K
      rw [List.countP_cons] at h2
      exact le_trans (Nat.le_add_right _ _) h2

theorem getD_eq_getElem_of_lt {A : Type} (l : List A) (a : A) (i : ℕ)
    (h : i < l.length) : l.getD i a = l[i] := by
  rw [List.getD_eq_getElem?_getD, List.getElem?_eq_getElem h, Option.getD_some]

theorem countP_pairs_sum {A B : Type} (la : List A) (lb : List B) (q : A → B → Bool) :
    ((la.flatMap fun a => lb.map fun b => (a, b)).countP fun p => q p.1 p.2) =
      (la.map fun a => (lb.map fun b => if q a b then 1 else 0).sum).sum := by
  rw [countP_flatMap]
  apply congrArg List.sum
  apply List.map_congr_left
  intro a _
  rw [List.countP_map, countP_eq_sum_if]
  apply congrArg List.sum
  apply List.map_congr_left
  intro b _
  rfl

theorem extract_facKey_count_le (courseIds facultyIds roomIds : List String)
    (ts : List MTimeSlot) (x : String → String → String → ℕ → Bool)
    (hndF : facultyIds.Nodup) (hts : (ts.map tsKey).Nodup)
    (hfac : facNoDouble courseIds facultyIds roomIds ts x)
    (K : String × String × String) :
    (extractSolution courseIds facultyIds roomIds ts x).countP
      (fun s => facKey s == K) ≤ 1 := by
  obtain ⟨fid, d, s₀⟩ := K
  rw [show (extractSolution courseIds facultyIds roomIds ts x).countP
        (fun s => facKey s == (fid, d, s₀)) =
      (courseIds.map fun c => (facultyIds.map fun f => (roomIds.map fun r =>
        (List.range ts.length).countP fun i =>
          x c f r i && ((f == fid) && slotKeyMatch ts d s₀ i)).sum).sum).sum from by
    simp only [extractSolution, countP_flatMap, countP_filterMap_if]
    rfl]
  by_cases hex : ∃ i, i < ts.length ∧ (ts.getD i dfltTS).day = d ∧
      (ts.getD i dfltTS).startTime = s₀
  case neg =>
    have hz : ∀ c ∈ courseIds, ∀ f ∈ facultyIds, ∀ r ∈ roomIds,
        ((List.range ts.length).countP fun i =>
          x c f r i && ((f == fid) && slotKeyMatch ts d s₀ i)) = 0 := by
      intro c _ f _ r _
      rw [List.countP_eq_zero]
      intro i hi hcon
      simp only [Bool.and_eq_true, slotKeyMatch, beq_iff_eq] at hcon
      exact hex ⟨i, List.mem_range.mp hi, hcon.2.2.1, hcon.2.2.2⟩
    exact le_trans
      (le_of_eq (triple_sum_zero courseIds facultyIds roomIds _ hz)) (Nat.zero_le 1)
  case pos =>
    obtain ⟨i₁, hi₁, hd₁, hs₁⟩ := hex
    by_cases hmem : fid ∈ facultyIds
    case neg =>
      have hz : ∀ c ∈ courseIds, ∀ f ∈ facultyIds, ∀ r ∈ roomIds,
          ((List.range ts.length).countP fun i =>
            x c f r i && ((f == fid) && slotKeyMatch ts d s₀ i)) = 0 := by
        intro c _ f hf r _
        rw [List.countP_eq_zero]
        intro i hi hcon
        simp only [Bool.and_eq_true, beq_iff_eq] at hcon
        exact hmem (hcon.2.1 ▸ hf)
      exact le_trans
        (le_of_eq (triple_sum_zero courseIds facultyIds roomIds _ hz)) (Nat.zero_le 1)
    case pos =>
      have huniq : ∀ i, i < ts.length → (ts.getD i dfltTS).day = d →
          (ts.getD i dfltTS).startTime = s₀ → i = i₁ := by
        intro i hi hdi hsi
        have hfi : i < (ts.map tsKey).length := by
          rw [List.length_map]
          exact hi
        have hfi₁ : i₁ < (ts.map tsKey).length := by
          rw [List.length_map]
          exact hi₁
        have e1 : tsKey (ts.getD i dfltTS) = (d, s₀) := by
          unfold tsKey
          rw [hdi, hsi]
        have e2 : tsKey (ts.getD i₁ dfltTS) = (d, s₀) := by
          unfold tsKey
          rw [hd₁, hs₁]
        have hkey : (ts.map tsKey)[i] = (ts.map tsKey)[i₁] := by
          rw [List.getElem_map, List.getElem_map,
            ← getD_eq_getElem_of_lt ts dfltTS i hi,
            ← getD_eq_getElem_of_lt ts dfltTS i₁ hi₁, e1, e2]
        exact hts.getElem_inj_iff.mp hkey
      have huniqB : ∀ i ∈ List.range ts.length,
          slotKeyMatch ts d s₀ i = true → i = i₁ := by
        intro i hi hk
        simp only [slotKeyMatch, Bool.and_eq_true, beq_iff_eq] at hk
        exact huniq i (List.mem_range.mp hi) hk.1 hk.2
      calc (courseIds.map fun c => (facultyIds.map fun f => (roomIds.map fun r =>
              (List.range ts.length).countP fun i =>
                x c f r i && ((f == fid) && slotKeyMatch ts d s₀ i)).sum).sum).sum
          ≤ (courseIds.map fun c => (roomIds.map fun r =>
              if x c fid r i₁ then 1 else 0).sum).sum := by
            apply List.sum_le_sum
            intro c _
            calc (facultyIds.map fun f => (roomIds.map fun r =>
                    (List.range ts.length).countP fun i =>
                      x c f r i && ((f == fid) && slotKeyMatch ts d s₀ i)).sum).sum
                ≤ (roomIds.map fun r =>
                    (List.range ts.length).countP fun i =>
                      x c fid r i && ((fid == fid) && slotKeyMatch ts d s₀ i)).sum := by
                  apply sum_map_le_single _ fid facultyIds hndF
                  intro f _ hf
                  apply List.sum_eq_zero
                  intro u hu
                  rcases List.mem_map.mp hu with ⟨r, _, rfl⟩
                  rw [List.countP_eq_zero]
                  intro i _ hcon
                  simp only [Bool.and_eq_true, beq_iff_eq] at hcon
                  exact hf hcon.2.1
              _ ≤ (roomIds.map fun r => if x c fid r i₁ then 1 else 0).sum := by
                  apply List.sum_le_sum
                  intro r _
                  have hcg : ((List.range ts.length).countP fun i =>
                      x c fid r i && ((fid == fid) && slotKeyMatch ts d s₀ i)) =
                      ((List.range ts.length).countP fun i =>
                        x c fid r i && slotKeyMatch ts d s₀ i) := by
                    apply List.countP_congr
                    intro i _
                    simp
                  rw [hcg]
                  exact countP_range_le_ind ts.length i₁ (fun i => x c fid r i)
                    (slotKeyMatch ts d s₀) huniqB
        _ = (crPairs courseIds roomIds).countP (fun p => x p.1 fid p.2 i₁) :=
            (countP_pairs_sum courseIds roomIds (fun c r => x c fid r i₁)).symm
        _ ≤ 1 := hfac fid hmem i₁ (List.mem_range.mpr hi₁)

theorem extract_roomKey_count_le (courseIds facultyIds roomIds : List String)
    (ts : List MTimeSlot) (x : String → String → String → ℕ → Bool)
    (hndR : roomIds.Nodup) (hts : (ts.map tsKey).Nodup)
    (hroom : roomNoDouble courseIds facultyIds roomIds ts x)
    (K : String × String × String) :
    (extractSolution courseIds facultyIds roomIds ts x).countP
      (fun s => roomKey s == K) ≤ 1 := by
  obtain ⟨rid, d, s₀⟩ := K
  rw [show (extractSolution courseIds facultyIds roomIds ts x).countP
        (fun s => roomKey s == (rid, d, s₀)) =
      (courseIds.map fun c => (facultyIds.map fun f => (roomIds.map fun r =>
        (List.range ts.length).countP fun i =>
          x c f r i && ((r == rid) && slotKeyMatch ts d s₀ i)).sum).sum).sum from by
    simp only [extractSolution, countP_flatMap, countP_filterMap_if]
    rfl]
  by_cases hex : ∃ i, i < ts.length ∧ (ts.getD i dfltTS).day = d ∧
      (ts.getD i dfltTS).startTime = s₀
  case neg =>
    have hz : ∀ c ∈ courseIds, ∀ f ∈ facultyIds, ∀ r ∈ roomIds,
        ((List.range ts.length).countP fun i =>
          x c f r i && ((r == rid) && slotKeyMatch ts d s₀ i)) = 0 := by
      intro c _ f _ r _
      rw [List.countP_eq_zero]
      intro i hi hcon
      simp only [Bool.and_eq_true, slotKeyMatch, beq_iff_eq] at hcon
      exact hex ⟨i, List.mem_range.mp hi, hcon.2.2.1, hcon.2.2.2⟩
    exact le_trans
      (le_of_eq (triple_sum_zero courseIds facultyIds roomIds _ hz)) (Nat.zero_le 1)
  case pos =>
    obtain ⟨i₁, hi₁, hd₁, hs₁⟩ := hex
    by_cases hmem : rid ∈ roomIds
    case neg =>
      have hz : ∀ c ∈ courseIds, ∀ f ∈ facultyIds, ∀ r ∈ roomIds,
          ((List.range ts.length).countP fun i =>
            x c f r i && ((r == rid) && slotKeyMatch ts d s₀ i)) = 0 := by
        intro c _ f _ r hr
        rw [List.countP_eq_zero]
        intro i hi hcon
        simp only [Bool.and_eq_true, beq_iff_eq] at hcon
        exact hmem (hcon.2.1 ▸ hr)
      exact le_trans
        (le_of_eq (triple_sum_zero courseIds facultyIds roomIds _ hz)) (Nat.zero_le 1)
    case pos =>
      have huniq : ∀ i, i < ts.length → (ts.getD i dfltTS).day = d →
          (ts.getD i dfltTS).startTime = s₀ → i = i₁ := by
        intro i hi hdi hsi
        have hfi : i < (ts.map tsKey).length := by
          rw [List.length_map]
          exact hi
        have hfi₁ : i₁ < (ts.map tsKey).length := by
          rw [List.length_map]
          exact hi₁
        have e1 : tsKey (ts.getD i dfltTS) = (d, s₀) := by
          unfold tsKey
          rw [hdi, hsi]
        have e2 : tsKey (ts.getD i₁ dfltTS) = (d, s₀) := by
          unfold tsKey
          rw [hd₁, hs₁]
        have hkey : (ts.map tsKey)[i] = (ts.map tsKey)[i₁] := by
          rw [List.getElem_map, List.getElem_map,
            ← getD_eq_getElem_of_lt ts dfltTS i hi,
            ← getD_eq_getElem_of_lt ts dfltTS i₁ hi₁, e1, e2]
        exact hts.getElem_inj_iff.mp hkey
      have huniqB : ∀ i ∈ List.range ts.length,
          slotKeyMatch ts d s₀ i = true → i = i₁ := by
        intro i hi hk
        simp only [slotKeyMatch, Bool.and_eq_true, beq_iff_eq] at hk
        exact huniq i (List.mem_range.mp hi) hk.1 hk.2
      calc (courseIds.map fun c => (facultyIds.map fun f => (roomIds.map fun r =>
              (List.range ts.length).countP fun i =>
                x c f r i && ((r == rid) && slotKeyMatch ts d s₀ i)).sum).sum).sum
          ≤ (courseIds.map fun c => (facultyIds.map fun f =>
              if x c f rid i₁ then 1 else 0).sum).sum := by
            apply List.sum_le_sum
            intro c _
            apply List.sum_le_sum
            intro f _
            calc (roomIds.map fun r =>
                    (List.range ts.length).countP fun i =>
                      x c f r i && ((r == rid) && slotKeyMatch ts d s₀ i)).sum
                ≤ ((List.range ts.length).countP fun i =>
                    x c f rid i && ((rid == rid) && slotKeyMatch ts d s₀ i)) := by
                  apply sum_map_le_single _ rid roomIds hndR
                  intro r _ hr
                  rw [List.countP_eq_zero]
                  intro i _ hcon
                  simp only [Bool.and_eq_true, beq_iff_eq] at hcon
                  exact hr hcon.2.1
              _ ≤ if x c f rid i₁ then 1 else 0 := by
                  have hcg : ((List.range ts.length).countP fun i =>
                      x c f rid i && ((rid == rid) && slotKeyMatch ts d s₀ i)) =
                      ((List.range ts.length).countP fun i =>
                        x c f rid i && slotKeyMatch ts d s₀ i) := by
                    apply List.countP_congr
                    intro i _
                    simp
                  rw [hcg]
                  exact countP_range_le_ind ts.length i₁ (fun i => x c f rid i)
                    (slotKeyMatch ts d s₀) huniqB
        _ = (cfPairs courseIds facultyIds).countP (fun p => x p.1 p.2 rid i₁) :=
            (countP_pairs_sum courseIds facultyIds (fun c f => x c f rid i₁)).symm
        _ ≤ 1 := hroom rid hmem i₁ (List.mem_range.mpr hi₁)

theorem clashPass_eq_nil (key : TimetableSlotM → String × String × String)
    (desc : TimetableSlotM → String) (ctype : String) :
    ∀ (slots : List TimetableSlotM) (seen : List (String × String × String)),
      (slots.map key).Nodup → (∀ s ∈ slots, key s ∉ seen) →
      clashPass key desc ctype slots seen = [] := by
  intro slots
  induction slots with
  | nil =>
    intro seen _ _
    rfl
  | cons s rest ih =>
    intro seen hnd hseen
    rw [List.map_cons] at hnd
    rcases List.nodup_cons.mp hnd with ⟨hks, hnd2⟩
    simp only [clashPass]
    rw [if_neg (hseen s (List.mem_cons_self s rest))]
    apply ih (seen ++ [key s]) hnd2
    intro t ht
    simp only [List.mem_append, List.mem_singleton]
    rintro (h | h)
    · exact hseen t (List.mem_cons_of_mem s ht) h
    · exact hks (h ▸ List.mem_map_of_mem key ht)

/-- C1: counterexample to the literal claim. With two request time slots
sharing the same (day, start_time) pair, an assignment that satisfies all
three basic model constraints — exactly `credits` variables per course, at
most one booking per (room, slot index) and per (faculty, slot index) —
still extracts to a slot list on which the conflict detector reports both
a faculty clash and a room clash, because the model constrains per slot
INDEX while the detector groups per (day, start_time) string key. -/
theorem solverConflicts_ne_claim :
    courseExactly ["C1"] ["F1"] ["R1"] tsDup (fun _ => 2) (fun _ _ _ _ => true) ∧
    roomNoDouble ["C1"] ["F1"] ["R1"] tsDup (fun _ _ _ _ => true) ∧
    facNoDouble ["C1"] ["F1"] ["R1"] tsDup (fun _ _ _ _ => true) ∧
    ["C1"].Nodup ∧ ["F1"].Nodup ∧ ["R1"].Nodup ∧
    detectConflicts (extractSolution ["C1"] ["F1"] ["R1"] tsDup (fun _ _ _ _ => true)) =
      [⟨"faculty_clash", "Faculty F1 has overlapping assignments", "high"⟩,
       ⟨"room_clash", "Room R1 has overlapping bookings", "high"⟩] := by
  refine ⟨?_, ?_, ?_, ?_, ?_, ?_, ?_⟩
  · unfold courseExactly
    decide
  · unfold roomNoDouble
    decide
  · unfold facNoDouble
    decide
  · decide
  · decide
  · decide
  · decide

/-- C1 (amended): provided the request's time slots carry pairwise
distinct (day, start_time) pairs — and given that course, faculty and
room ids are duplicate-free, as they are in the solver where they arise
as dictionary keys — every assignment satisfying the room and faculty
no-double-booking constraints of `_add_basic_constraints` extracts via
`_extract_solution` to a timetable on which `_detect_conflicts` returns
the empty conflict list: no two entries share (faculty_id, day,
start_time) and no two share (room_id, day, start_time). -/
theorem solverSchedule_conflictFree (courseIds facultyIds roomIds : List String)
    (ts : List MTimeSlot) (x : String → String → String → ℕ → Bool)
    (hndF : facultyIds.Nodup) (hndR : roomIds.Nodup)
    (hts : (ts.map tsKey).Nodup)
    (hroom : roomNoDouble courseIds facultyIds roomIds ts x)
    (hfac : facNoDouble courseIds facultyIds roomIds ts x) :
    detectConflicts (extractSolution courseIds facultyIds roomIds ts x) = [] := by
  have hfN : ((extractSolution courseIds facultyIds roomIds ts x).map facKey).Nodup := by
    apply nodup_of_countP_le_one
    intro K
    rw [List.countP_map]
    exact extract_facKey_count_le courseIds facultyIds roomIds ts x hndF hts hfac K
  have hrN : ((extractSolution courseIds facultyIds roomIds ts x).map roomKey).Nodup := by
    apply nodup_of_countP_le_one
    intro K
    rw [List.countP_map]
    exact extract_roomKey_count_le courseIds facultyIds roomIds ts x hndR hts hroom K
  unfold detectConflicts
  rw [clashPass_eq_nil _ _ _ _ [] hfN (fun s _ h => absurd h (List.not_mem_nil _)),
    clashPass_eq_nil _ _ _ _ [] hrN (fun s _ h => absurd h (List.not_mem_nil _))]
  rfl

/-- C1 (amended), witness: a concrete request with two distinct time
slots and an assignment placing the course at slot 0 only satisfies the
hypotheses, and the detector returns no conflicts. -/
theorem solverSchedule_conflictFree_witness :
    detectConflicts
      (extractSolution ["C1"] ["F1"] ["R1"] tsTwo (fun _ _ _ i => i == 0)) = [] :=
  solverSchedule_conflictFree ["C1"] ["F1"] ["R1"] tsTwo (fun _ _ _ i => i == 0)
    (by decide) (by decide) (by decide)
    (by unfold roomNoDouble; decide) (by unfold facNoDouble; decide)

/-! ## Grid Builder (`timetable_config.py`)

Times are minutes after midnight: Python `time` objects at whole-minute
granularity compare exactly as their minute count.
`_add_minutes_to_time` routes through `datetime` arithmetic and then
drops the date, i.e. it wraps modulo 24 hours — also for negative
offsets, which `grace_time` permits since it is an unvalidated `int`.
The `while` loop of `generate_timetable_grid` is modelled with explicit
fuel; `GridErr.labelIndex` models the `IndexError` raised by the
unguarded `self.slot_labels[slot_index]`, and `GridErr.noDays` the
`ValueError` raised by `max()` over the empty `grid_matrix.values()`
when `working_days` is empty. -/

/-- The `SlotLength` enum: teaching slots of 50, 55 or 60 minutes. -/
inductive SlotLen where
  | fifty
  | fiftyFive
  | sixty
deriving DecidableEq

/-- Numeric value of the slot length (`int(config.slot_length.value)`). -/
def SlotLen.minutes : SlotLen → ℕ
  | .fifty => 50
  | .fiftyFive => 55
  | .sixty => 60

/-- Model of `Break` (type, start, end in minutes, active flag). -/
structure MBreak where
  btype : String
  startTime : ℕ
  endTime : ℕ
  isActive : Bool
deriving DecidableEq

/-- Model of `BaseTimetableConfig`. -/
structure MConfig where
  collegeStart : ℕ
  collegeEnd : ℕ
  slotLen : SlotLen
  graceTime : ℤ
  breaks : List MBreak
  workingDays : List String
deriving DecidableEq

/-- Model of `TimeSlotPattern`. -/
structure MSlotPattern where
  slotId : String
  day : String
  startTime : ℕ
  endTime : ℕ
  duration : ℤ
  isBreak : Bool
  breakType : Option String
deriving DecidableEq

/-- Model of `TimetableGrid` (config field omitted: it is the input). -/
structure MGrid where
  slots : List MSlotPattern
  totalSlotsPerDay : ℕ
  totalTeachingSlotsPerDay : ℕ
  gridMatrix : List (String × List String)
deriving DecidableEq

/-- The ways `generate_timetable_grid` can fail to return a grid:
an `IndexError` from `slot_labels[slot_index]`, a `ValueError` from
`max()` on no working days, or loop-fuel exhaustion (model artifact). -/
inductive GridErr where
  | labelIndex (i : ℕ)
  | noDays
  | fuel
deriving DecidableEq

instance {E A : Type} [DecidableEq E] [DecidableEq A] : DecidableEq (Except E A) :=
  fun a b =>
    match a, b with
    | .error e1, .error e2 => decidable_of_iff (e1 = e2) (by simp)
    | .error _, .ok _ => .isFalse (by simp)
    | .ok _, .error _ => .isFalse (by simp)
    | .ok a1, .ok a2 => decidable_of_iff (a1 = a2) (by simp)

/-- The label table `self.slot_labels` (exactly 8 labels). -/
def slotLabels : List String := ["A", "B", "C", "D", "E", "F", "G", "H"]

/-- Model of `_add_minutes_to_time`: add (possibly negative) minutes and
wrap modulo 24 hours. -/
def addMinutes (t : ℕ) (m : ℤ) : ℕ := (((t : ℤ) + m) % 1440).toNat

/-- Model of `_is_break_time` and `_get_break_end_time`: both scan the
break list in order for the first active break containing the time, so a
single `find?` serves both. -/
def isBreakTime (t : ℕ) (breaks : List MBreak) : Option MBreak :=
  breaks.find? fun b =>
    b.isActive && decide (b.startTime ≤ t) && decide (t < b.endTime)

/-- Model of `_get_period_number`: 1 before 13:00 (780 min), else 2. -/
def periodNumber (t : ℕ) : ℕ := if t < 780 then 1 else 2

/-- Python `str.upper()` on the character list (ASCII inputs here). -/
def pyToUpper (s : String) : String := ⟨s.data.map Char.toUpper⟩

/-- Python slicing `s[:n]` on the character list. -/
def pyTake (s : String) (n : ℕ) : String := ⟨s.data.take n⟩

/-- The break `TimeSlotPattern` literal built inside the loop. -/
def breakSlot (day : String) (current : ℕ) (b : MBreak) : MSlotPattern :=
  { slotId := "BREAK_" ++ pyToUpper b.btype ++ "_" ++ pyTake day 3,
    day := day, startTime := current, endTime := b.endTime,
    duration := (b.endTime : ℤ) - (current : ℤ), isBreak := true,
    breakType := some b.btype }

/-- The teaching `TimeSlotPattern` literal built inside the loop. -/
def teachSlot (day sid : String) (current endT : ℕ) (dur : ℤ) : MSlotPattern :=
  { slotId := sid, day := day, startTime := current, endTime := endT,
    duration := dur, isBreak := false, breakType := none }

/-- One day's `while current_time < college_end_time` loop of
`generate_timetable_grid`, accumulating the global slot list and the
day's slot-id list exactly as the Python loop mutates them. -/
def dayLoop (cfg : MConfig) (day : String) :
    ℕ → ℕ → ℕ → List MSlotPattern → List String →
      Except GridErr (List MSlotPattern × List String)
  | 0, _, _, _, _ => .error .fuel
  | fuel + 1, current, slotIndex, slots, daily =>
    if current < cfg.collegeEnd then
      match isBreakTime current cfg.breaks with
      | some b =>
        dayLoop cfg day fuel b.endTime slotIndex
          (slots ++ [breakSlot day current b]) daily
      | none =>
        let endT := addMinutes current (cfg.slotLen.minutes : ℤ)
        if cfg.collegeEnd < endT then
          .ok (slots, daily)
        else
          match slotLabels[slotIndex]? with
          | none => .error (.labelIndex slotIndex)
          | some lab =>
            dayLoop cfg day fuel (addMinutes endT cfg.graceTime) (slotIndex + 1)
              (slots ++
                [teachSlot day (lab ++ toString (periodNumber current)) current endT
                  (cfg.slotLen.minutes : ℤ)])
              (daily ++ [lab ++ toString (periodNumber current)])
    else .ok (slots, daily)

/-- The `for day in config.working_days` loop: run each day's loop from
`college_start_time` with slot index 0 and a fresh daily list, and store
the daily list under the day key (`grid_matrix[day] = daily_slots`). -/
def processDays (cfg : MConfig) (fuel : ℕ) :
    List String → List MSlotPattern → List (String × List String) →
      Except GridErr (List MSlotPattern × List (String × List String))
  | [], slots, gm => .ok (slots, gm)
  | day :: rest, slots, gm =>
    match dayLoop cfg day fuel cfg.collegeStart 0 slots [] with
    | .error e => .error e
    | .ok pr => processDays cfg fuel rest pr.1 (dictInsert gm day pr.2)

/-- Model of `TimetableConfigManager.generate_timetable_grid`. -/
def generateTimetableGrid (fuel : ℕ) (cfg : MConfig) : Except GridErr MGrid :=
  match processDays cfg fuel cfg.workingDays [] [] with
  | .error e => .error e
  | .ok pr =>
    match cfg.workingDays with
    | [] => .error .noDays
    | d0 :: _ =>
      .ok { slots := pr.1,
            totalSlotsPerDay := (pr.2.map fun p => p.2.length).foldl max 0,
            totalTeachingSlotsPerDay :=
              (pr.1.filter fun s => !s.isBreak && s.day == d0).length,
            gridMatrix := pr.2 }

/-- Emitted slots are strictly time-ordered within a day: the earlier
slot ends no later than the later one starts. -/
def SlotOrd (s1 s2 : MSlotPattern) : Prop :=
  s1.day = s2.day → s1.endTime ≤ s2.startTime

/-- A teaching slot never STARTS inside an active break (the only break
check `generate_timetable_grid` performs, via `_is_break_time`). -/
def TeachOK (cfg : MConfig) (s : MSlotPattern) : Prop :=
  s.isBreak = false → ∀ b ∈ cfg.breaks, b.isActive = true →
    ¬(b.startTime ≤ s.startTime ∧ s.startTime < b.endTime)

/-- Per-day teaching-slot counts of a successful grid. -/
def gridDailyCounts (fuel : ℕ) (cfg : MConfig) : Option (List ℕ) :=
  match generateTimetableGrid fuel cfg with
  | .ok g => some (g.gridMatrix.map fun p => p.2.length)
  | .error _ => none

/-- A 9:00–12:00 day with a 9:30–10:30 break: the first teaching slot
[540, 600) is laid across the break's start. -/
def cfgB : MConfig := ⟨540, 720, .sixty, 0, [⟨"morning", 570, 630, true⟩], ["Monday"]⟩

/-- The grid `cfgB` produces. -/
def gB : MGrid :=
  ⟨[⟨"A1", "Monday", 540, 600, 60, false, none⟩,
    ⟨"BREAK_MORNING_Mon", "Monday", 600, 630, 30, true, some "morning"⟩,
    ⟨"B1", "Monday", 630, 690, 60, false, none⟩],
   2, 2, [("Monday", ["A1", "B1"])]⟩

/-- Negative grace time and two overlapping active breaks: both invalid
per the claim, yet the generator returns a grid (with overlapping
teaching slots). -/
def cfg7 : MConfig :=
  ⟨540, 660, .sixty, -10,
   [⟨"morning", 600, 630, true⟩, ⟨"lunch", 615, 645, true⟩], ["Monday"]⟩

/-- The grid `cfg7` produces: [540, 600) and [590, 650) overlap. -/
def g7 : MGrid :=
  ⟨[⟨"A1", "Monday", 540, 600, 60, false, none⟩,
    ⟨"B1", "Monday", 590, 650, 60, false, none⟩,
    ⟨"BREAK_LUNCH_Mon", "Monday", 640, 645, 5, true, some "lunch"⟩],
   2, 2, [("Monday", ["A1", "B1"])]⟩

/-- 8:00–18:00 with 50-minute slots and 10-minute grace admits a 9th
teaching slot, so the label lookup at index 8 raises. -/
def cfg9 : MConfig := ⟨480, 1080, .fifty, 10, [], ["Monday"]⟩

/-- 8:00–16:00 with 50-minute slots and 10-minute grace: exactly 8
teaching slots fit. -/
def cfg8 : MConfig := ⟨480, 960, .fifty, 10, [], ["Monday"]⟩

/-- Start equal to end: the loop exits immediately with an empty day. -/
def cfgT : MConfig := ⟨540, 540, .sixty, 10, [], ["Monday"]⟩

/-- The grid `cfgT` produces. -/
def gT : MGrid := ⟨[], 0, 0, [("Monday", [])]⟩

/-- An otherwise valid configuration with no working days. -/
def cfgNoDays : MConfig := ⟨540, 720, .sixty, 10, [], ([] : List String)⟩

/-- A concrete tiny configuration satisfying all amended hypotheses. -/
def cfgW : MConfig := ⟨540, 600, .sixty, 0, [], ["Monday"]⟩

/-- The grid `cfgW` produces. -/
def gW : MGrid :=
  ⟨[⟨"A1", "Monday", 540, 600, 60, false, none⟩], 1, 1, [("Monday", ["A1"])]⟩

theorem addMinutes_eq (t : ℕ) (m : ℤ) (h0 : 0 ≤ (t : ℤ) + m)
    (h : (t : ℤ) + m < 1440) : (addMinutes t m : ℤ) = (t : ℤ) + m := by
  unfold addMinutes
  rw [Int.emod_eq_of_lt h0 h, Int.toNat_of_nonneg h0]

theorem mem_dictInsert {A : Type} {l : List (String × A)} {k : String} {v : A}
    {p : String × A} (h : p ∈ dictInsert l k v) : p ∈ l ∨ p = (k, v) := by
  unfold dictInsert at h
  split at h
  · rcases List.mem_map.mp h with ⟨q, hq, rfl⟩
    by_cases hqk : q.1 = k
    · rw [if_pos hqk]
      right
      rfl
    · rw [if_neg hqk]
      left
      exact hq
  · rcases List.mem_append.mp h with h | h
    · left
      exact h
    · right
      exact List.mem_singleton.mp h

theorem dayLoop_ok_invariant (cfg : MConfig) (day : String)
    (hgr : 0 ≤ cfg.graceTime)
    (hdur : cfg.collegeEnd + cfg.slotLen.minutes ≤ 1440)
    (hgrace : (cfg.collegeEnd : ℤ) + cfg.graceTime ≤ 1439) :
    ∀ (fuel current slotIndex : ℕ) (slots : List MSlotPattern)
      (daily : List String) (res : List MSlotPattern × List String),
      dayLoop cfg day fuel current slotIndex slots daily = .ok res →
      (∀ s ∈ slots, s.day = day → s.endTime ≤ current) →
      List.Pairwise SlotOrd slots →
      (∀ s ∈ slots, TeachOK cfg s) →
      List.Pairwise SlotOrd res.1 ∧ (∀ s ∈ res.1, TeachOK cfg s) ∧
        (∀ s ∈ res.1, s ∈ slots ∨ s.day = day) := by
  intro fuel
  induction fuel with
  | zero =>
    intro current slotIndex slots daily res h _ _ _
    simp [dayLoop] at h
  | succ fuel ih =>
    intro current slotIndex slots daily res h hend hpw hteach
    by_cases hlt : current < cfg.collegeEnd
    case neg =>
      rw [show dayLoop cfg day (fuel + 1) current slotIndex slots daily =
          .ok (slots, daily) from by simp [dayLoop, hlt]] at h
      cases h
      exact ⟨hpw, hteach, fun s hs => Or.inl hs⟩
    case pos =>
      cases hfind : isBreakTime current cfg.breaks with
      | some b =>
        have hb := List.find?_some hfind
        simp only [Bool.and_eq_true, decide_eq_true_eq] at hb
        rw [show dayLoop cfg day (fuel + 1) current slotIndex slots daily =
            dayLoop cfg day fuel b.endTime slotIndex
              (slots ++ [breakSlot day current b]) daily from by
          simp [dayLoop, hlt, hfind]] at h
        have hend2 : ∀ s ∈ slots ++ [breakSlot day current b],
            s.day = day → s.endTime ≤ b.endTime := by
          intro s hs hsday
          rcases List.mem_append.mp hs with hs | hs
          · exact le_trans (hend s hs hsday) (le_of_lt hb.2)
          · rcases List.mem_singleton.mp hs with rfl
            exact Nat.le_refl _
        have hpw2 : List.Pairwise SlotOrd (slots ++ [breakSlot day current b]) := by
          rw [List.pairwise_append]
          refine ⟨hpw, by simp, ?_⟩
          intro s hs t ht
          rcases List.mem_singleton.mp ht with rfl
          intro hsd
          exact hend s hs hsd
        have hteach2 : ∀ s ∈ slots ++ [breakSlot day current b], TeachOK cfg s := by
          intro s hs
          rcases List.mem_append.mp hs with hs | hs
          · exact hteach s hs
          · rcases List.mem_singleton.mp hs with rfl
            intro hfalse
            simp [breakSlot] at hfalse
        obtain ⟨hpwr, htr, hdr⟩ := ih b.endTime slotIndex _ daily res h hend2 hpw2 hteach2
        refine ⟨hpwr, htr, ?_⟩
        intro s hs
        rcases hdr s hs with hmem | hday2
        · rcases List.mem_append.mp hmem with hmem | hmem
          · exact Or.inl hmem
          · rcases List.mem_singleton.mp hmem with rfl
            exact Or.inr rfl
        · exact Or.inr hday2
      | none =>
        have hET : ((addMinutes current (cfg.slotLen.minutes : ℤ)) : ℤ) =
            (current : ℤ) + cfg.slotLen.minutes := by
          apply addMinutes_eq
          · positivity
          · have h1 : (current : ℤ) < cfg.collegeEnd := by exact_mod_cast hlt
            have h2 : (cfg.collegeEnd : ℤ) + cfg.slotLen.minutes ≤ 1440 := by
              exact_mod_cast hdur
            omega
        by_cases hover : cfg.collegeEnd < addMinutes current (cfg.slotLen.minutes : ℤ)
        case pos =>
          rw [show dayLoop cfg day (fuel + 1) current slotIndex slots daily =
              .ok (slots, daily) from by simp [dayLoop, hlt, hfind, hover]] at h
          cases h
          exact ⟨hpw, hteach, fun s hs => Or.inl hs⟩
        case neg =>
          cases hlab : slotLabels[slotIndex]? with
          | none =>
            rw [show dayLoop cfg day (fuel + 1) current slotIndex slots daily =
                .error (.labelIndex slotIndex) from by
              simp [dayLoop, hlt, hfind, hover, hlab]] at h
            simp at h
          | some lab =>
            have hcurET : current ≤ addMinutes current (cfg.slotLen.minutes : ℤ) := by
              omega
            have hETend : addMinutes current (cfg.slotLen.minutes : ℤ) ≤ cfg.collegeEnd :=
              Nat.le_of_not_lt hover
            have hNC : ((addMinutes (addMinutes current (cfg.slotLen.minutes : ℤ))
                cfg.graceTime) : ℤ) =
                ((addMinutes current (cfg.slotLen.minutes : ℤ)) : ℤ) + cfg.graceTime := by
              apply addMinutes_eq
              · omega
              · have h1 : ((addMinutes current (cfg.slotLen.minutes : ℤ)) : ℤ) ≤
                    cfg.collegeEnd := by exact_mod_cast hETend
                omega
            have hETNC : addMinutes current (cfg.slotLen.minutes : ℤ) ≤
                addMinutes (addMinutes current (cfg.slotLen.minutes : ℤ)) cfg.graceTime := by
              omega
            rw [show dayLoop cfg day (fuel + 1) current slotIndex slots daily =
                dayLoop cfg day fuel
                  (addMinutes (addMinutes current (cfg.slotLen.minutes : ℤ)) cfg.graceTime)
                  (slotIndex + 1)
                  (slots ++
                    [teachSlot day (lab ++ toString (periodNumber current)) current
                      (addMinutes current (cfg.slotLen.minutes : ℤ))
                      (cfg.slotLen.minutes : ℤ)])
                  (daily ++ [lab ++ toString (periodNumber current)]) from by
              simp [dayLoop, hlt, hfind, hover, hlab]] at h
            have hend2 : ∀ s ∈ slots ++
                [teachSlot day (lab ++ toString (periodNumber current)) current
                  (addMinutes current (cfg.slotLen.minutes : ℤ)) (cfg.slotLen.minutes : ℤ)],
                s.day = day → s.endTime ≤
                  addMinutes (addMinutes current (cfg.slotLen.minutes : ℤ)) cfg.graceTime := by
              intro s hs hsday
              rcases List.mem_append.mp hs with hs | hs
              · exact le_trans (hend s hs hsday) (le_trans hcurET hETNC)
              · rcases List.mem_singleton.mp hs with rfl
                exact hETNC
            have hpw2 : List.Pairwise SlotOrd (slots ++
                [teachSlot day (lab ++ toString (periodNumber current)) current
                  (addMinutes current (cfg.slotLen.minutes : ℤ))
                  (cfg.slotLen.minutes : ℤ)]) := by
              rw [List.pairwise_append]
              refine ⟨hpw, by simp, ?_⟩
              intro s hs t ht
              rcases List.mem_singleton.mp ht with rfl
              intro hsd
              exact hend s hs hsd
            have hteach2 : ∀ s ∈ slots ++
                [teachSlot day (lab ++ toString (periodNumber current)) current
                  (addMinutes current (cfg.slotLen.minutes : ℤ)) (cfg.slotLen.minutes : ℤ)],
                TeachOK cfg s := by
              intro s hs
              rcases List.mem_append.mp hs with hs | hs
              · exact hteach s hs
              · rcases List.mem_singleton.mp hs with rfl
                intro _ b hbmem hbact hcontain
                have hnone := List.find?_eq_none.mp hfind b hbmem
                apply hnone
                simp only [teachSlot] at hcontain
                simp [hbact, hcontain.1, hcontain.2]
            obtain ⟨hpwr, htr, hdr⟩ := ih _ (slotIndex + 1) _ _ res h hend2 hpw2 hteach2
            refine ⟨hpwr, htr, ?_⟩
            intro s hs
            rcases hdr s hs with hmem | hday2
            · rcases List.mem_append.mp hmem with hmem | hmem
              · exact Or.inl hmem
              · rcases List.mem_singleton.mp hmem with rfl
                exact Or.inr rfl
            · exact Or.inr hday2

theorem dayLoop_daily_bound (cfg : MConfig) (day : String) :
    ∀ (fuel current slotIndex : ℕ) (slots : List MSlotPattern)
      (daily : List String) (res : List MSlotPattern × List String),
      dayLoop cfg day fuel current slotIndex slots daily = .ok res →
      daily.length ≤ slotIndex → slotIndex ≤ 8 →
      res.2.length ≤ 8 := by
  intro fuel
  induction fuel with
  | zero =>
    intro current slotIndex slots daily res h _ _
    simp [dayLoop] at h
  | succ fuel ih =>
    intro current slotIndex slots daily res h hlen hidx
    by_cases hlt : current < cfg.collegeEnd
    case neg =>
      rw [show dayLoop cfg day (fuel + 1) current slotIndex slots daily =
          .ok (slots, daily) from by simp [dayLoop, hlt]] at h
      cases h
      exact le_trans hlen hidx
    case pos =>
      cases hfind : isBreakTime current cfg.breaks with
      | some b =>
        rw [show dayLoop cfg day (fuel + 1) current slotIndex slots daily =
            dayLoop cfg day fuel b.endTime slotIndex
              (slots ++ [breakSlot day current b]) daily from by
          simp [dayLoop, hlt, hfind]] at h
        exact ih b.endTime slotIndex _ daily res h hlen hidx
      | none =>
        by_cases hover : cfg.collegeEnd < addMinutes current (cfg.slotLen.minutes : ℤ)
        case pos =>
          rw [show dayLoop cfg day (fuel + 1) current slotIndex slots daily =
              .ok (slots, daily) from by simp [dayLoop, hlt, hfind, hover]] at h
          cases h
          exact le_trans hlen hidx
        case neg =>
          cases hlab : slotLabels[slotIndex]? with
          | none =>
            rw [show dayLoop cfg day (fuel + 1) current slotIndex slots daily =
                .error (.labelIndex slotIndex) from by
              simp [dayLoop, hlt, hfind, hover, hlab]] at h
            simp at h
          | some lab =>
            have hidx8 : slotIndex < 8 := by
              by_contra hge
              rw [List.getElem?_eq_none (by
                simp only [slotLabels]
                simp
                omega)] at hlab
              simp at hlab
            rw [show dayLoop cfg day (fuel + 1) current slotIndex slots daily =
                dayLoop cfg day fuel
                  (addMinutes (addMinutes current (cfg.slotLen.minutes : ℤ)) cfg.graceTime)
                  (slotIndex + 1)
                  (slots ++
                    [teachSlot day (lab ++ toString (periodNumber current)) current
                      (addMinutes current (cfg.slotLen.minutes : ℤ))
                      (cfg.slotLen.minutes : ℤ)])
                  (daily ++ [lab ++ toString (periodNumber current)]) from by
              simp [dayLoop, hlt, hfind, hover, hlab]] at h
            apply ih _ (slotIndex + 1) _ _ res h
            · simp only [List.length_append, List.length_singleton]
              omega
            · omega

theorem processDays_ok_invariant (cfg : MConfig)
    (hgr : 0 ≤ cfg.graceTime)
    (hdur : cfg.collegeEnd + cfg.slotLen.minutes ≤ 1440)
    (hgrace : (cfg.collegeEnd : ℤ) + cfg.graceTime ≤ 1439) :
    ∀ (days : List String) (fuel : ℕ) (slots : List MSlotPattern)
      (gm : List (String × List String))
      (res : List MSlotPattern × List (String × List String)),
      processDays cfg fuel days slots gm = .ok res →
      days.Nodup →
      (∀ s ∈ slots, s.day ∉ days) →
      List.Pairwise SlotOrd slots →
      (∀ s ∈ slots, TeachOK cfg s) →
      List.Pairwise SlotOrd res.1 ∧ (∀ s ∈ res.1, TeachOK cfg s) := by
  intro days
  induction days with
  | nil =>
    intro fuel slots gm res h _ _ hpw ht
    rw [show processDays cfg fuel [] slots gm = .ok (slots, gm) from rfl] at h
    cases h
    exact ⟨hpw, ht⟩
  | cons day rest ih =>
    intro fuel slots gm res h hnd hfresh hpw ht
    cases hday : dayLoop cfg day fuel cfg.collegeStart 0 slots [] with
    | error e =>
      rw [show processDays cfg fuel (day :: rest) slots gm = .error e from by
        simp [processDays, hday]] at h
      simp at h
    | ok pr =>
      rw [show processDays cfg fuel (day :: rest) slots gm =
          processDays cfg fuel rest pr.1 (dictInsert gm day pr.2) from by
        simp [processDays, hday]] at h
      have hend0 : ∀ s ∈ slots, s.day = day → s.endTime ≤ cfg.collegeStart := by
        intro s hs hsday
        exact absurd (show s.day ∈ day :: rest by
          rw [hsday]
          exact List.mem_cons_self day rest) (hfresh s hs)
      obtain ⟨hpw2, ht2, hday2⟩ :=
        dayLoop_ok_invariant cfg day hgr hdur hgrace fuel cfg.collegeStart 0 slots [] pr
          hday hend0 hpw ht
      rcases List.nodup_cons.mp hnd with ⟨hdayrest, hndrest⟩
      apply ih fuel pr.1 (dictInsert gm day pr.2) res h hndrest ?_ hpw2 ht2
      intro s hs
      rcases hday2 s hs with hold | hnew
      · exact fun hmem => hfresh s hold (List.mem_cons_of_mem day hmem)
      · rw [hnew]
        exact hdayrest

theorem processDays_matrix_bound (cfg : MConfig) :
    ∀ (days : List String) (fuel : ℕ) (slots : List MSlotPattern)
      (gm : List (String × List String))
      (res : List MSlotPattern × List (String × List String)),
      processDays cfg fuel days slots gm = .ok res →
      (∀ p ∈ gm, p.2.length ≤ 8) →
      ∀ p ∈ res.2, p.2.length ≤ 8 := by
  intro days
  induction days with
  | nil =>
    intro fuel slots gm res h hgm
    rw [show processDays cfg fuel [] slots gm = .ok (slots, gm) from rfl] at h
    cases h
    exact hgm
  | cons day rest ih =>
    intro fuel slots gm res h hgm
    cases hday : dayLoop cfg day fuel cfg.collegeStart 0 slots [] with
    | error e =>
      rw [show processDays cfg fuel (day :: rest) slots gm = .error e from by
        simp [processDays, hday]] at h
      simp at h
    | ok pr =>
      rw [show processDays cfg fuel (day :: rest) slots gm =
          processDays cfg fuel rest pr.1 (dictInsert gm day pr.2) from by
        simp [processDays, hday]] at h
      have hb : pr.2.length ≤ 8 :=
        dayLoop_daily_bound cfg day fuel cfg.collegeStart 0 slots [] pr hday
          (by simp) (by omega)
      apply ih fuel pr.1 (dictInsert gm day pr.2) res h
      intro p hp
      rcases mem_dictInsert hp with hold | hnew
      · exact hgm p hold
      · rw [hnew]
        exact hb

/-- C2: counterexample to the literal claim. A 9:00–12:00 day with a
60-minute slot length, zero grace and one active 9:30–10:30 break —
non-negative grace, no midnight wraparound — produces a grid whose first
teaching slot [540, 600) intersects the break interval [570, 630):
`_is_break_time` checks only whether a slot STARTS inside a break, never
whether the slot laid from an earlier start runs into one. -/
theorem gridOverlap_ne_claim :
    generateTimetableGrid 100 cfgB = .ok gB ∧
    0 ≤ cfgB.graceTime ∧
    ∃ s ∈ gB.slots, s.isBreak = false ∧ ∃ b ∈ cfgB.breaks, b.isActive = true ∧
      s.startTime < b.endTime ∧ b.startTime < s.endTime := by
  refine ⟨by decide, by decide, ?_⟩
  decide

/-- C2 (amended): provided grace_time is non-negative, the working
window plus one slot stays within the day (college_end + slot_duration ≤
24 h and college_end + grace ≤ 23:59, so `_add_minutes_to_time` never
wraps) and working days are distinct, every grid the builder returns has
its slots strictly time-ordered per day (an earlier-emitted slot ends no
later than a same-day later one starts, hence no two same-day slots
overlap), and no teaching slot STARTS inside an active break; a teaching
slot can still run into a break that begins mid-slot, which is the most
the code guarantees. -/
theorem gridSlots_ordered (fuel : ℕ) (cfg : MConfig) (g : MGrid)
    (hgr : 0 ≤ cfg.graceTime)
    (hdur : cfg.collegeEnd + cfg.slotLen.minutes ≤ 1440)
    (hgrace : (cfg.collegeEnd : ℤ) + cfg.graceTime ≤ 1439)
    (hnd : cfg.workingDays.Nodup)
    (h : generateTimetableGrid fuel cfg = .ok g) :
    List.Pairwise SlotOrd g.slots ∧ ∀ s ∈ g.slots, TeachOK cfg s := by
  unfold generateTimetableGrid at h
  cases hpd : processDays cfg fuel cfg.workingDays [] [] with
  | error e =>
    rw [hpd] at h
    simp at h
  | ok pr =>
    rw [hpd] at h
    cases hwd : cfg.workingDays with
    | nil =>
      rw [hwd] at h
      simp at h
    | cons d0 rest =>
      rw [hwd] at h
      dsimp only at h
      cases h
      exact processDays_ok_invariant cfg hgr hdur hgrace cfg.workingDays fuel [] [] pr
        hpd hnd (by simp) List.Pairwise.nil (by simp)

/-- C2 (amended), witness: on a concrete one-slot configuration the
hypotheses hold and the returned grid's slots are ordered with no
teaching slot starting inside a break. -/
theorem gridSlots_ordered_witness :
    List.Pairwise SlotOrd gW.slots ∧ ∀ s ∈ gW.slots, TeachOK cfgW s :=
  gridSlots_ordered 100 cfgW gW (by decide) (by decide) (by decide) (by decide)
    (by decide)

/-- C7: the claimed fail-fast validation does not exist. A configuration
with NEGATIVE grace_time and two overlapping active breaks — both
configuration errors per the claim — is processed without any error:
`generate_timetable_grid` returns a grid, and the negative grace even
makes consecutive teaching slots [540, 600) and [590, 650) overlap. -/
theorem gridNoValidation_bug :
    cfg7.graceTime < 0 ∧
    (∃ b1 ∈ cfg7.breaks, ∃ b2 ∈ cfg7.breaks, b1 ≠ b2 ∧ b1.isActive = true ∧
      b2.isActive = true ∧ b1.startTime < b2.endTime ∧ b2.startTime < b1.endTime) ∧
    generateTimetableGrid 100 cfg7 = .ok g7 ∧
    ∃ s1 ∈ g7.slots, ∃ s2 ∈ g7.slots, s1 ≠ s2 ∧ s1.day = s2.day ∧
      s1.startTime < s2.endTime ∧ s2.startTime < s1.endTime := by
  refine ⟨by decide, by decide, by decide, by decide⟩

/-- C9: counterexample to the literal claim. The empty working-days
configuration admits at most 8 teaching slots per day (vacuously), yet
`generate_timetable_grid` does not return normally: `max()` over the
empty `grid_matrix.values()` raises a `ValueError`. -/
theorem gridEmptyDays_ne_claim :
    generateTimetableGrid 100 cfgNoDays = .error .noDays := by
  decide

/-- C9 (amended): the label table holds exactly 8 labels A–H and the
lookup `slot_labels[slot_index]` is unguarded; on every successful
return each day's teaching-slot list has at most 8 entries, so no slot
beyond the 8th label is ever emitted; the concrete 8:00–18:00
configuration with 50-minute slots and 10-minute grace admits a 9th
teaching slot and raises index-out-of-range at index 8 instead of
returning, while the 8:00–16:00 variant returns a grid with exactly 8
teaching slots on its day. -/
theorem gridLabelBound :
    slotLabels.length = 8 ∧
    (∀ (fuel : ℕ) (cfg : MConfig) (g : MGrid),
      generateTimetableGrid fuel cfg = .ok g →
      ∀ p ∈ g.gridMatrix, p.2.length ≤ 8) ∧
    generateTimetableGrid 100 cfg9 = .error (.labelIndex 8) ∧
    gridDailyCounts 100 cfg8 = some [8] := by
  refine ⟨by decide, ?_, by decide, by decide⟩
  intro fuel cfg g h p hp
  unfold generateTimetableGrid at h
  cases hpd : processDays cfg fuel cfg.workingDays [] [] with
  | error e =>
    rw [hpd] at h
    simp at h
  | ok pr =>
    rw [hpd] at h
    cases hwd : cfg.workingDays with
    | nil =>
      rw [hwd] at h
      simp at h
    | cons d0 rest =>
      rw [hwd] at h
      dsimp only at h
      cases h
      exact processDays_matrix_bound cfg cfg.workingDays fuel [] [] pr hpd (by simp) p hp

/-- C9 (amended), witness: the trivial one-day empty-window
configuration returns a grid, and the bound instantiates to its (empty)
day list. -/
theorem gridLabelBound_witness :
    generateTimetableGrid 100 cfgT = .ok gT ∧ ∀ p ∈ gT.gridMatrix, p.2.length ≤ 8 :=
  ⟨by decide, gridLabelBound.2.1 100 cfgT gT (by decide)⟩

end FlexiSched
